import Mathlib

/-!
Verification of the cubecl IR / frontend-expansion / wgpu-backend core.

The definitions below are a shallow embedding of the Rust sources:
  - `crates/cubecl-core/src/ir/scope.rs` (the `Scope` container and `process()`),
  - `crates/cubecl-core/src/frontend/branch.rs` (the expansion helpers),
  - `crates/cubecl-wgpu/src/compiler/wgsl/{base,compiler,instructions}.rs`
    (the WGSL backend), and
  - `crates/cubecl-wgpu/src/compute/server.rs` (the pipeline cache and the
    command-batching counters).
Rust `u8`/`u16`/`usize` indices are modelled as `Nat` (none of the id and
length computations below can overflow `u16`/`usize` in the regimes the
theorems quantify over), panics as `Except.error`, and `&mut self` methods as
state-passing functions.  Types whose defining module is not among the
provided sources (the IR enums, `CubeContext`, `ScopeProcessing.optimize`,
`KernelId`) are modelled from the specification document; each such
definition carries a doc comment saying so.
-/

namespace Cubecl

/-- Floating-point element kinds of the IR (`Elem::Float` payload). -/
inductive FloatKind where
  | F16
  | BF16
  | F32
  | F64
deriving DecidableEq, Repr

/-- Integer element kinds of the IR (`Elem::Int` payload). -/
inductive IntKind where
  | I32
  | I64
deriving DecidableEq, Repr

/-- Modelled from the spec: primitive element type `Elem` of the IR
(`Float{F16,BF16,F32,F64}`, `Int{I32,I64}`, `AtomicInt`, `UInt`, `AtomicUInt`,
`Bool`); the defining module `ir/variable.rs` is not among the provided
sources, but the variants are fixed by the spec's data model and by their
uses in `scope.rs` and the WGSL compiler. -/
inductive Elem where
  | Float (kind : FloatKind)
  | Int (kind : IntKind)
  | AtomicInt (kind : IntKind)
  | UInt
  | AtomicUInt
  | Bool
deriving DecidableEq, Repr

/-- Modelled from the spec: an `Item` is an `Elem` with a vectorization
factor. -/
structure Item where
  elem : Elem
  vectorization : Nat
deriving DecidableEq, Repr

/-- Modelled from the spec: numeric literals use a `ConstantScalarValue` sum
carrying `(value, elem kind)`.  The `f64` payload of the `Float` variant is
carried as an uninterpreted bit pattern: floating-point arithmetic is outside
this embedding and no result below depends on a `Float` constant. -/
inductive ConstantScalarValue where
  | Int (value : ℤ) (kind : IntKind)
  | Float (bits : ℕ) (kind : FloatKind)
  | UInt (value : ℕ)
  | Bool (value : Bool)
deriving DecidableEq, Repr

/-- Modelled from the spec: `ConstantScalarValue::as_usize` (used by
`range_expand` on unrolled bounds).  The integer variants cast to `usize`;
the float/bool casts are not modelled (no result below exercises them). -/
def ConstantScalarValue.as_usize : ConstantScalarValue → ℕ
  | .Int value _ => value.toNat
  | .Float _ _ => 0
  | .UInt value => value
  | .Bool _ => 0

/-- Modelled from the spec: the `Variable` sum of the IR, with the variants
listed in the spec's data model.  The `mat` descriptor payload of `Matrix` is
omitted (cooperative-matrix types are not needed by any claim). -/
inductive Variable where
  | GlobalInputArray (id : ℕ) (item : Item)
  | GlobalOutputArray (id : ℕ) (item : Item)
  | GlobalScalar (id : ℕ) (elem : Elem)
  | ConstantScalar (value : ConstantScalarValue)
  | Local (id : ℕ) (item : Item) (depth : ℕ)
  | LocalScalar (id : ℕ) (elem : Elem) (depth : ℕ)
  | Slice (id : ℕ) (item : Item) (depth : ℕ)
  | Matrix (id : ℕ) (depth : ℕ)
  | SharedMemory (id : ℕ) (item : Item) (length : ℕ)
  | LocalArray (id : ℕ) (item : Item) (depth : ℕ) (length : ℕ)
  | AbsolutePos
  | AbsolutePosX
  | AbsolutePosY
  | AbsolutePosZ
  | UnitPos
  | UnitPosX
  | UnitPosY
  | UnitPosZ
  | CubePos
  | CubePosX
  | CubePosY
  | CubePosZ
  | CubeDim
  | CubeDimX
  | CubeDimY
  | CubeDimZ
  | CubeCount
  | CubeCountX
  | CubeCountY
  | CubeCountZ
  | Rank
  | SubcubeDim
deriving DecidableEq, Repr

/-- Operand record of unary operators (`UnaryOperator { input, out }`). -/
structure UnaryOperator where
  input : Variable
  out : Variable
deriving DecidableEq, Repr

/-- Operand record of binary operators (`BinaryOperator { lhs, rhs, out }`). -/
structure BinaryOperator where
  lhs : Variable
  rhs : Variable
  out : Variable
deriving DecidableEq, Repr

/-- Modelled from the spec: the IR `Operator` sum.  Only the variants that
the theorems below construct are listed; the remaining arithmetic variants
are payload-identical (`UnaryOperator`/`BinaryOperator`) and none of the
functions embedded here inspects them. -/
inductive Operator where
  | Assign (op : UnaryOperator)
  | Add (op : BinaryOperator)
  | Modulo (op : BinaryOperator)
  | Equal (op : BinaryOperator)
  | Lower (op : BinaryOperator)
deriving DecidableEq, Repr

/-- Procedure payload `ReadGlobal { global, out, position }` (fields as
constructed in `scope.rs`). -/
structure ReadGlobal where
  global : Variable
  out : Variable
  position : Variable
deriving DecidableEq, Repr

/-- Procedure payload `ReadGlobalWithLayout { globals, layout, outs,
position }` (fields as constructed in `scope.rs`). -/
structure ReadGlobalWithLayout where
  globals : List Variable
  layout : Variable
  outs : List Variable
  position : Variable
deriving DecidableEq, Repr

/-- Procedure payload `WriteGlobal { input, global, position }` (fields as
constructed in `scope.rs`). -/
structure WriteGlobal where
  input : Variable
  global : Variable
  position : Variable
deriving DecidableEq, Repr

/-- Procedure payload `EarlyReturn { global, position }` (fields as
constructed in `scope.rs`). -/
structure EarlyReturn where
  global : Variable
  position : Variable
deriving DecidableEq, Repr

/-- Modelled from the spec: payload of `IndexOffsetGlobalWithLayout`; its
defining module is not among the provided sources.  `scope.rs` only reads and
assigns its `layout` field, so the other operand lists are carried opaquely. -/
structure IndexOffsetGlobalWithLayout where
  tensors : List Variable
  indexes : List Variable
  layout : Variable
deriving DecidableEq, Repr

/-- Modelled from the spec: the `Procedure` sum
(`ReadGlobal`, `ReadGlobalWithLayout`, `WriteGlobal`, `ConditionalAssign`,
`CheckedIndex`, `CheckedIndexAssign`, `IndexOffsetGlobalWithLayout`,
`EarlyReturn`).  The payloads of the three bounds-checking variants are not
inspected by any embedded function and are omitted. -/
inductive Procedure where
  | ReadGlobal (p : ReadGlobal)
  | ReadGlobalWithLayout (p : ReadGlobalWithLayout)
  | WriteGlobal (p : WriteGlobal)
  | ConditionalAssign
  | CheckedIndex
  | CheckedIndexAssign
  | IndexOffsetGlobalWithLayout (p : IndexOffsetGlobalWithLayout)
  | EarlyReturn (p : EarlyReturn)
deriving DecidableEq, Repr

/-- Modelled from the spec: the `Metadata` operations (`Stride`, `Shape`,
`Length`), with the field names used by the WGSL compiler. -/
inductive Metadata where
  | Stride (dim : Variable) (var : Variable) (out : Variable)
  | Shape (dim : Variable) (var : Variable) (out : Variable)
  | Length (var : Variable) (out : Variable)
deriving DecidableEq, Repr

/-- Modelled from the spec: the `Synchronization` operations. -/
inductive Synchronization where
  | SyncUnits
  | SyncStorage
deriving DecidableEq, Repr

/-- Reading strategy recorded for a deferred input read (`scope.rs`). -/
inductive ReadingStrategy where
  | OutputLayout
  | Plain
deriving DecidableEq, Repr

mutual

/-- Modelled from the spec: the `Operation` sum
(Operator / Procedure / Branch / Metadata / Synchronization / Subcube /
CoopMma).  The payloads of `Subcube` and `CoopMma` are not inspected by any
embedded function and are omitted. -/
inductive Operation where
  | Operator (op : Operator)
  | Procedure (proc : Procedure)
  | Metadata (m : Metadata)
  | Branch (b : Branch)
  | Synchronization (s : Synchronization)
  | Subcube
  | CoopMma

/-- Modelled from the spec: the `Branch` sum; loop/conditional branches own
child scopes. -/
inductive Branch where
  | If (cond : Variable) (scope : Scope)
  | IfElse (cond : Variable) (scope_if : Scope) (scope_else : Scope)
  | RangeLoop (i : Variable) (start : Variable) (end_ : Variable)
      (step : Option Variable) (scope : Scope)
  | Loop (scope : Scope)
  | Return
  | Break

/-- The `Scope` struct of `scope.rs`, with its thirteen fields in source
order (`depth`, `operations`, `locals`, `matrices`, `slices`,
`shared_memories`, `local_arrays`, `reads_global`,
`index_offset_with_output_layout_position`, `writes_global`, `reads_scalar`,
`layout_ref`, `undeclared`).  A `reads_global` entry is
`(input, strategy, local, position)`; a `writes_global` entry is
`(input, output, position)`; a `reads_scalar` entry is `(local, scalar)`. -/
inductive Scope where
  | mk
      (depth : ℕ)
      (operations : List Operation)
      (locals : List Variable)
      (matrices : List Variable)
      (slices : List Variable)
      (shared_memories : List Variable)
      (local_arrays : List Variable)
      (reads_global : List (Variable × ReadingStrategy × Variable × Variable))
      (index_offset_with_output_layout_position : List ℕ)
      (writes_global : List (Variable × Variable × Variable))
      (reads_scalar : List (Variable × Variable))
      (layout_ref : Option Variable)
      (undeclared : ℕ)

end

/-- Field accessor: `Scope.depth`. -/
def Scope.depth : Scope → ℕ
  | .mk d _ _ _ _ _ _ _ _ _ _ _ _ => d

/-- Field accessor: `Scope.operations`. -/
def Scope.operations : Scope → List Operation
  | .mk _ ops _ _ _ _ _ _ _ _ _ _ _ => ops

/-- Field accessor: `Scope.locals`. -/
def Scope.locals : Scope → List Variable
  | .mk _ _ lo _ _ _ _ _ _ _ _ _ _ => lo

/-- Field accessor: `Scope.matrices`. -/
def Scope.matrices : Scope → List Variable
  | .mk _ _ _ ma _ _ _ _ _ _ _ _ _ => ma

/-- Field accessor: `Scope.slices`. -/
def Scope.slices : Scope → List Variable
  | .mk _ _ _ _ sl _ _ _ _ _ _ _ _ => sl

/-- Field accessor: `Scope.shared_memories`. -/
def Scope.shared_memories : Scope → List Variable
  | .mk _ _ _ _ _ sh _ _ _ _ _ _ _ => sh

/-- Field accessor: `Scope.local_arrays`. -/
def Scope.local_arrays : Scope → List Variable
  | .mk _ _ _ _ _ _ la _ _ _ _ _ _ => la

/-- Field accessor: `Scope.reads_global`. -/
def Scope.reads_global : Scope → List (Variable × ReadingStrategy × Variable × Variable)
  | .mk _ _ _ _ _ _ _ rg _ _ _ _ _ => rg

/-- Field accessor: `Scope.index_offset_with_output_layout_position`. -/
def Scope.index_offset_with_output_layout_position : Scope → List ℕ
  | .mk _ _ _ _ _ _ _ _ io _ _ _ _ => io

/-- Field accessor: `Scope.writes_global`. -/
def Scope.writes_global : Scope → List (Variable × Variable × Variable)
  | .mk _ _ _ _ _ _ _ _ _ wg _ _ _ => wg

/-- Field accessor: `Scope.reads_scalar`. -/
def Scope.reads_scalar : Scope → List (Variable × Variable)
  | .mk _ _ _ _ _ _ _ _ _ _ rs _ _ => rs

/-- Field accessor: `Scope.layout_ref`. -/
def Scope.layout_ref : Scope → Option Variable
  | .mk _ _ _ _ _ _ _ _ _ _ _ lr _ => lr

/-- Field accessor: `Scope.undeclared`. -/
def Scope.undeclared : Scope → ℕ
  | .mk _ _ _ _ _ _ _ _ _ _ _ _ un => un

/-- `Scope::root()`: the scope at depth 0 with every list empty. -/
def Scope.root : Scope :=
  .mk 0 [] [] [] [] [] [] [] [] [] [] none 0

/-- `Scope::child()`: an empty scope one level deeper, inheriting the
parent's `layout_ref`. -/
def Scope.child (s : Scope) : Scope :=
  .mk (s.depth + 1) [] [] [] [] [] [] [] [] [] [] s.layout_ref 0

/-- `Scope::new_local_index()`: `locals.len() + undeclared`. -/
def Scope.new_local_index (s : Scope) : ℕ :=
  s.locals.length + s.undeclared

/-- `Scope::new_local_scalar_index()`: `reads_scalar.len()`. -/
def Scope.new_local_scalar_index (s : Scope) : ℕ :=
  s.reads_scalar.length

/-- `Scope::create_local(item)`: push a `Local` with the next local index. -/
def Scope.create_local (s : Scope) (item : Item) : Scope × Variable :=
  match s with
  | .mk d ops lo ma sl sh la rg io wg rs lr un =>
    let index := lo.length + un
    let lv := Variable.Local index item d
    (.mk d ops (lo ++ [lv]) ma sl sh la rg io wg rs lr un, lv)

/-- `Scope::create_local_undeclared(item)`: allocate the next local index and
bump `undeclared` without pushing a declaration. -/
def Scope.create_local_undeclared (s : Scope) (item : Item) : Scope × Variable :=
  match s with
  | .mk d ops lo ma sl sh la rg io wg rs lr un =>
    let index := lo.length + un
    let lv := Variable.Local index item d
    (.mk d ops lo ma sl sh la rg io wg rs lr (un + 1), lv)

/-- `Scope::create_matrix(..)`: push a `Matrix` variable indexed by
`matrices.len()` (the `mat` descriptor payload is omitted, see `Variable`). -/
def Scope.create_matrix (s : Scope) : Scope × Variable :=
  match s with
  | .mk d ops lo ma sl sh la rg io wg rs lr un =>
    let v := Variable.Matrix ma.length d
    (.mk d ops lo (ma ++ [v]) sl sh la rg io wg rs lr un, v)

/-- `Scope::create_slice(item)`: push a `Slice` variable indexed by
`slices.len()`. -/
def Scope.create_slice (s : Scope) (item : Item) : Scope × Variable :=
  match s with
  | .mk d ops lo ma sl sh la rg io wg rs lr un =>
    let v := Variable.Slice sl.length item d
    (.mk d ops lo ma (sl ++ [v]) sh la rg io wg rs lr un, v)

/-- `Scope::read_input_strategy(index, item, strategy, position)`: allocate
the destination local (booleans are read from a `UInt` global of the same
vectorization), record the deferred read and declare the local. -/
def Scope.read_input_strategy (s : Scope) (index : ℕ) (item : Item)
    (strategy : ReadingStrategy) (position : Variable) : Scope × Variable :=
  match s with
  | .mk d ops lo ma sl sh la rg io wg rs lr un =>
    let item_global : Item :=
      match item.elem with
      | .Bool => { elem := Elem.UInt, vectorization := item.vectorization }
      | _ => item
    let input := Variable.GlobalInputArray index item_global
    let idx := lo.length + un
    let lv := Variable.Local idx item d
    (.mk d ops (lo ++ [lv]) ma sl sh la (rg ++ [(input, strategy, lv, position)])
      io wg rs lr un, lv)

/-- `Scope::read_array(index, item, position)`: a deferred read with the
`OutputLayout` strategy. -/
def Scope.read_array (s : Scope) (index : ℕ) (item : Item) (position : Variable) :
    Scope × Variable :=
  s.read_input_strategy index item .OutputLayout position

/-- `Scope::read_scalar(index, elem)`: record a deferred scalar read into a
fresh `LocalScalar`. -/
def Scope.read_scalar (s : Scope) (index : ℕ) (elem : Elem) : Scope × Variable :=
  match s with
  | .mk d ops lo ma sl sh la rg io wg rs lr un =>
    let lv := Variable.LocalScalar rs.length elem d
    let scalar := Variable.GlobalScalar index elem
    (.mk d ops lo ma sl sh la rg io wg (rs ++ [(lv, scalar)]) lr un, lv)

/-- `Scope::write_global(input, output, position)`: record a deferred write;
the first recorded output becomes the `layout_ref` anchor. -/
def Scope.write_global (s : Scope) (input output position : Variable) : Scope :=
  match s with
  | .mk d ops lo ma sl sh la rg io wg rs lr un =>
    let lr := match lr with
      | none => some output
      | some l => some l
    .mk d ops lo ma sl sh la rg io (wg ++ [(input, output, position)]) rs lr un

/-- `Scope::write_global_custom(output)`: record only the layout intent. -/
def Scope.write_global_custom (s : Scope) (output : Variable) : Scope :=
  match s with
  | .mk d ops lo ma sl sh la rg io wg rs lr un =>
    let lr := match lr with
      | none => some output
      | some l => some l
    .mk d ops lo ma sl sh la rg io wg rs lr un

/-- `Scope::register(op)`: append a fully-resolved operation. -/
def Scope.register (s : Scope) (operation : Operation) : Scope :=
  match s with
  | .mk d ops lo ma sl sh la rg io wg rs lr un =>
    .mk d (ops ++ [operation]) lo ma sl sh la rg io wg rs lr un

/-- `Scope::index_offset_with_output_layout(proc)`: remember the operation
index for layout backfilling, then push the procedure. -/
def Scope.index_offset_with_output_layout (s : Scope)
    (proc : IndexOffsetGlobalWithLayout) : Scope :=
  match s with
  | .mk d ops lo ma sl sh la rg io wg rs lr un =>
    .mk d (ops ++ [.Procedure (.IndexOffsetGlobalWithLayout proc)]) lo ma sl sh la rg
      (io ++ [ops.length]) wg rs lr un

/-- Modelled from the spec: the finalized `(variables, operations)` pair
returned by `Scope::process()`; the defining module `ir/processing.rs` is not
among the provided sources. -/
structure ScopeProcessing where
  «variables» : List Variable
  operations : List Operation

/-- Modelled from the spec: `ScopeProcessing::optimize` lives in
`ir/processing.rs`, which is not among the provided sources.  The spec
constrains it to conservative, semantics-preserving peephole rewrites and
explicitly leaves the exact rule set implementation-defined (its §9 lists the
rules as an open question), so it is modelled as the identity
transformation. -/
def ScopeProcessing.optimize (p : ScopeProcessing) : ScopeProcessing := p

/-- One deferred `reads_global` entry compiled to its procedure, following
the strategy match inside `Scope::process()`; reading with `OutputLayout`
demands a `layout_ref` (`expect` in the source). -/
def compile_read (layout_ref : Option Variable) :
    Variable × ReadingStrategy × Variable × Variable → Except String Operation
  | (input, .OutputLayout, lv, position) =>
    match layout_ref with
    | some output =>
      .ok (.Procedure (.ReadGlobalWithLayout
        { globals := [input], layout := output, outs := [lv], position := position }))
    | none =>
      .error "Output should be set when processing an input with output layout."
  | (input, .Plain, lv, position) =>
    .ok (.Procedure (.ReadGlobal { global := input, out := lv, position := position }))

/-- The `reads_global` drain of `Scope::process()`: compile each deferred
read in order. -/
def compile_reads (layout_ref : Option Variable) :
    List (Variable × ReadingStrategy × Variable × Variable) →
    Except String (List Operation)
  | [] => .ok []
  | entry :: rest =>
    match compile_read layout_ref entry with
    | .error msg => .error msg
    | .ok op =>
      match compile_reads layout_ref rest with
      | .error msg => .error msg
      | .ok ops => .ok (op :: ops)

/-- The layout-backfill loop at the start of `Scope::process()`: every
operation index recorded in `index_offset_with_output_layout_position` that
still holds an `IndexOffsetGlobalWithLayout` procedure gets its `layout`
field overwritten with the scope's `layout_ref` (`expect` in the source). -/
def backfill_layout (layout_ref : Option Variable) (ops : List Operation) :
    List ℕ → Except String (List Operation)
  | [] => .ok ops
  | index :: rest =>
    match ops.get? index with
    | some (.Procedure (.IndexOffsetGlobalWithLayout proc)) =>
      match layout_ref with
      | some l =>
        backfill_layout layout_ref
          (ops.set index (.Procedure (.IndexOffsetGlobalWithLayout { proc with layout := l })))
          rest
      | none =>
        .error "Output should be set when processing an index offset with output layout."
    | _ => backfill_layout layout_ref ops rest

/-- The `EarlyReturn` guard prepended by `Scope::process()`: present exactly
when the scope is the root (`depth == 0`) and a write is pending, and built
from the first recorded write's output and position. -/
def guard_ops (depth : ℕ) (writes_global : List (Variable × Variable × Variable)) :
    List Operation :=
  match writes_global.head? with
  | some (_input, global, position) =>
    if depth = 0 then
      [.Procedure (.EarlyReturn { global := global, position := position })]
    else []
  | none => []

/-- The scalar-read drain of `Scope::process()`: one `Assign` from the
recorded `GlobalScalar` to the recorded `LocalScalar` per entry. -/
def scalar_read_ops (reads_scalar : List (Variable × Variable)) : List Operation :=
  reads_scalar.map fun (lv, scalar) =>
    .Operator (.Assign { input := scalar, out := lv })

/-- The write drain of `Scope::process()`: one `WriteGlobal` procedure per
recorded write. -/
def write_ops (writes_global : List (Variable × Variable × Variable)) : List Operation :=
  writes_global.map fun (input, global, position) =>
    .Procedure (.WriteGlobal { input := input, global := global, position := position })

/-- `Scope::process()`: finalize the scope.  The output assembles, in source
order: the declared locals, matrices and slices (plus, later, the scalar-read
locals) into `variables`; and the optional root early-return guard, the
compiled deferred reads, the scalar-read assigns, the (layout-backfilled)
registered operations and the deferred writes into `operations`; the result
runs through `ScopeProcessing::optimize`.  The two `expect`s of the source
surface as `Except.error`.  (The source additionally drains the lists of
`self`; this post-state is not needed by any result and is not returned.) -/
def Scope.process (s : Scope) : Except String ScopeProcessing :=
  match s with
  | .mk depth operations locals matrices slices _sh _la reads_global io_positions
      writes_global reads_scalar layout_ref _undeclared =>
    match backfill_layout layout_ref operations io_positions with
    | .error msg => .error msg
    | .ok registered =>
      match compile_reads layout_ref reads_global with
      | .error msg => .error msg
      | .ok read_ops_list =>
        let scalar_vars := reads_scalar.map fun (lv, _) => lv
        let out_ops := guard_ops depth writes_global ++ read_ops_list
          ++ scalar_read_ops reads_scalar ++ registered ++ write_ops writes_global
        .ok (ScopeProcessing.optimize
          { «variables» := locals ++ matrices ++ slices ++ scalar_vars,
            operations := out_ops })

/-- Modelled from the spec: `CubeContext` (`frontend/context.rs` is not among
the provided sources).  Per the spec it is the build context a kernel
expansion emits into; `register`, `child` and `into_scope` delegate to the
`Scope` operations embedded above.  The root/pool bookkeeping it also carries
is not observable through the expansion helpers and is omitted. -/
structure CubeContext where
  scope : Scope

/-- `CubeContext::child()`: wrap a child scope. -/
def CubeContext.child (context : CubeContext) : CubeContext :=
  ⟨context.scope.child⟩

/-- `CubeContext::register(op)`: append into the current scope. -/
def CubeContext.register (context : CubeContext) (operation : Operation) : CubeContext :=
  ⟨context.scope.register operation⟩

/-- `CubeContext::into_scope()`: surrender the built scope. -/
def CubeContext.into_scope (context : CubeContext) : Scope :=
  context.scope

/-- Modelled from the spec: an `ExpandElement` wraps an IR variable (the
frontend's `ExpandElement::Plain` / `ExpandElementTyped` wrappers add no
observable data to the emitted IR). -/
abbrev ExpandElement := Variable

/-- `Item::new(elem)`: a scalar item (vectorization 1). -/
def Item.new (elem : Elem) : Item :=
  { elem := elem, vectorization := 1 }

/-- `break_expand(context)`: register `Branch::Break`. -/
def break_expand (context : CubeContext) : CubeContext :=
  context.register (.Branch .Break)

/-- `return_expand(context)`: register `Branch::Return`. -/
def return_expand (context : CubeContext) : CubeContext :=
  context.register (.Branch .Return)

/-- `if_expand(context, comptime_cond, runtime_cond, block)`: a comptime-true
condition inlines the block, a comptime-false one emits nothing, and an
unknown one runs the block in a child scope and registers
`If { cond: runtime_cond, scope: child }`. -/
def if_expand (context : CubeContext) (comptime_cond : Option Bool)
    (runtime_cond : ExpandElement) (block : CubeContext → CubeContext) : CubeContext :=
  match comptime_cond with
  | some cond => if cond then block context else context
  | none =>
    let child := block context.child
    context.register (.Branch (.If runtime_cond child.into_scope))

/-- `if_else_expand(...)`: as `if_expand`, with an else block. -/
def if_else_expand (context : CubeContext) (comptime_cond : Option Bool)
    (runtime_cond : ExpandElement) (then_block else_block : CubeContext → CubeContext) :
    CubeContext :=
  match comptime_cond with
  | some cond => if cond then then_block context else else_block context
  | none =>
    let then_child := then_block context.child
    let else_child := else_block context.child
    context.register
      (.Branch (.IfElse runtime_cond then_child.into_scope else_child.into_scope))

/-- `loop_expand(context, block)`: run the block in a child scope and
register `Loop { scope: child }`. -/
def loop_expand (context : CubeContext) (block : CubeContext → CubeContext) : CubeContext :=
  let inside_loop := block context.child
  context.register (.Branch (.Loop inside_loop.into_scope))

/-- `while_loop_expand(context, cond_fn, block)`: inside a fresh child scope,
evaluate the condition, call `if_expand(.., None, cond, break_expand)` (an
`If { cond, scope: [Break] }` — the source passes `cond` itself, not its
negation), then run the body; finally register `Loop { scope: child }`. -/
def while_loop_expand (context : CubeContext)
    (cond_fn : CubeContext → CubeContext × ExpandElement)
    (block : CubeContext → CubeContext) : CubeContext :=
  let inside_loop := context.child
  let (inside_loop, cond) := cond_fn inside_loop
  let inside_loop := if_expand inside_loop none cond break_expand
  let inside_loop := block inside_loop
  context.register (.Branch (.Loop inside_loop.into_scope))

/-- The comptime-unrolled loop body of `range_expand`: `for i in start..end`
invokes the callback once per index, passing the index as a fresh
`ConstantScalar` (the frontend converts a `usize` into a `UInt` constant).
Recursion is on the remaining iteration count `end - start`. -/
def unroll_range (func : CubeContext → ExpandElement → CubeContext) :
    ℕ → ℕ → CubeContext → CubeContext
  | _, 0, context => context
  | start, n + 1, context =>
    unroll_range func (start + 1) n (func context (.ConstantScalar (.UInt start)))

/-- `range_expand(context, start, end, unroll, func)`: when `unroll` is set,
both bounds must be `ConstantScalar`s (the source panics otherwise) and the
body is invoked `end - start` times on the parent context; otherwise an
undeclared `UInt` local is allocated in a child scope, the body is invoked
once with it, and a single `RangeLoop { i, start, end, step: None, scope }`
is registered into the parent context. -/
def range_expand (context : CubeContext) (start end_ : ExpandElement) (unroll : Bool)
    (func : CubeContext → ExpandElement → CubeContext) : Except String CubeContext :=
  if unroll then
    match start with
    | .ConstantScalar start_value =>
      match end_ with
      | .ConstantScalar end_value =>
        .ok (unroll_range func start_value.as_usize
          (end_value.as_usize - start_value.as_usize) context)
      | _ => .error "Only constant end can be unrolled."
    | _ => .error "Only constant start can be unrolled."
  else
    let child := context.child
    let (child_scope, i) := child.scope.create_local_undeclared (Item.new .UInt)
    let child : CubeContext := ⟨child_scope⟩
    let child := func child i
    .ok (context.register (.Branch (.RangeLoop i start end_ none child.into_scope)))

namespace wgsl

/-- WGSL element type (`wgsl/base.rs`). -/
inductive Elem where
  | F32
  | I32
  | AtomicI32
  | U32
  | AtomicU32
  | Bool
deriving DecidableEq, Repr

/-- WGSL item: an element with a vector arity (`wgsl/base.rs`). -/
inductive Item where
  | Vec4 (elem : Elem)
  | Vec3 (elem : Elem)
  | Vec2 (elem : Elem)
  | Scalar (elem : Elem)
deriving DecidableEq, Repr

/-- `Item::elem()` (`wgsl/base.rs`). -/
def Item.elem : Item → Elem
  | .Vec4 e => e
  | .Vec3 e => e
  | .Vec2 e => e
  | .Scalar e => e

/-- `Item::vectorization_factor()` (`wgsl/base.rs`). -/
def Item.vectorization_factor : Item → ℕ
  | .Vec4 _ => 4
  | .Vec3 _ => 3
  | .Vec2 _ => 2
  | .Scalar _ => 1

/-- WGSL variable sum (`wgsl/base.rs`). -/
inductive Variable where
  | SubgroupSize
  | GlobalInputArray (id : ℕ) (item : Item)
  | GlobalOutputArray (id : ℕ) (item : Item)
  | GlobalScalar (id : ℕ) (elem : Elem) (cube_elem : Cubecl.Elem)
  | ConstantScalar (value : ConstantScalarValue) (elem : Elem)
  | Local (id : ℕ) (item : Item) (depth : ℕ)
  | Named (name : String) (item : Item) (is_array : Bool)
  | Slice (id : ℕ) (item : Item) (depth : ℕ)
  | LocalScalar (id : ℕ) (elem : Elem) (depth : ℕ)
  | SharedMemory (id : ℕ) (item : Item) (length : ℕ)
  | LocalArray (id : ℕ) (item : Item) (depth : ℕ) (length : ℕ)
  | Id
  | LocalInvocationIndex
  | LocalInvocationIdX
  | LocalInvocationIdY
  | LocalInvocationIdZ
  | Rank
  | WorkgroupId
  | WorkgroupIdX
  | WorkgroupIdY
  | WorkgroupIdZ
  | GlobalInvocationIdX
  | GlobalInvocationIdY
  | GlobalInvocationIdZ
  | WorkgroupSize
  | WorkgroupSizeX
  | WorkgroupSizeY
  | WorkgroupSizeZ
  | NumWorkgroups
  | NumWorkgroupsX
  | NumWorkgroupsY
  | NumWorkgroupsZ
deriving DecidableEq, Repr

/-- `Variable::is_always_scalar()` (`wgsl/base.rs`). -/
def Variable.is_always_scalar : Variable → Bool
  | .GlobalScalar _ _ _ => true
  | .ConstantScalar _ _ => true
  | .LocalScalar _ _ _ => true
  | .Id => true
  | .LocalInvocationIndex => true
  | .LocalInvocationIdX => true
  | .LocalInvocationIdY => true
  | .LocalInvocationIdZ => true
  | .Rank => true
  | .GlobalInputArray _ _ => false
  | .GlobalOutputArray _ _ => false
  | .SharedMemory _ _ _ => false
  | .LocalArray _ _ _ _ => false
  | .Local _ _ _ => false
  | .Named _ _ _ => false
  | .Slice _ _ _ => false
  | .WorkgroupIdX => true
  | .WorkgroupIdY => true
  | .WorkgroupIdZ => true
  | .GlobalInvocationIdX => true
  | .GlobalInvocationIdY => true
  | .GlobalInvocationIdZ => true
  | .WorkgroupSizeX => true
  | .WorkgroupSizeY => true
  | .WorkgroupSizeZ => true
  | .NumWorkgroupsX => true
  | .NumWorkgroupsY => true
  | .NumWorkgroupsZ => true
  | .WorkgroupId => true
  | .WorkgroupSize => true
  | .NumWorkgroups => true
  | .SubgroupSize => true

/-- `Variable::item()` (`wgsl/base.rs`). -/
def Variable.item : Variable → Item
  | .GlobalInputArray _ item => item
  | .GlobalOutputArray _ item => item
  | .SharedMemory _ item _ => item
  | .LocalArray _ item _ _ => item
  | .Local _ item _ => item
  | .Slice _ item _ => item
  | .Named _ item _ => item
  | .ConstantScalar _ elem => .Scalar elem
  | .GlobalScalar _ elem _ => .Scalar elem
  | .LocalScalar _ elem _ => .Scalar elem
  | .Id => .Scalar .U32
  | .LocalInvocationIndex => .Scalar .U32
  | .LocalInvocationIdX => .Scalar .U32
  | .LocalInvocationIdY => .Scalar .U32
  | .LocalInvocationIdZ => .Scalar .U32
  | .Rank => .Scalar .U32
  | .WorkgroupId => .Scalar .U32
  | .WorkgroupIdX => .Scalar .U32
  | .WorkgroupIdY => .Scalar .U32
  | .WorkgroupIdZ => .Scalar .U32
  | .GlobalInvocationIdX => .Scalar .U32
  | .GlobalInvocationIdY => .Scalar .U32
  | .GlobalInvocationIdZ => .Scalar .U32
  | .WorkgroupSize => .Scalar .U32
  | .WorkgroupSizeX => .Scalar .U32
  | .WorkgroupSizeY => .Scalar .U32
  | .WorkgroupSizeZ => .Scalar .U32
  | .NumWorkgroups => .Scalar .U32
  | .NumWorkgroupsX => .Scalar .U32
  | .NumWorkgroupsY => .Scalar .U32
  | .NumWorkgroupsZ => .Scalar .U32
  | .SubgroupSize => .Scalar .U32

/-- `Variable::elem()` (`wgsl/base.rs`). -/
def Variable.elem (v : Variable) : Elem :=
  v.item.elem

/-- Modelled from the spec: the WGSL helper-function extensions
(`wgsl/extension.rs` is not among the provided sources; the variants and
their `Item` payloads are fixed by their construction sites in
`register_extensions`). -/
inductive Extension where
  | PowfPrimitive (item : Item)
  | PowfScalar (item : Item)
  | Powf (item : Item)
  | Erf (item : Item)
  | SafeTanh (item : Item)
deriving DecidableEq, Repr

/-- WGSL instruction sum (`wgsl/instructions.rs`).  Only the variants that
the embedded backend functions construct or that `register_extensions`
distinguishes are listed; every remaining arithmetic variant falls into the
same wildcard arm of `register_extensions` as `Add` and `Assign` do. -/
inductive Instruction where
  | DeclareVariable (var : Variable)
  | Add (lhs : Variable) (rhs : Variable) (out : Variable)
  | Assign (input : Variable) (out : Variable)
  | Powf (lhs : Variable) (rhs : Variable) (out : Variable)
  | Erf (input : Variable) (out : Variable)
  | Tanh (input : Variable) (out : Variable)
  | If (cond : Variable) (instructions : List Instruction)
  | IfElse (cond : Variable) (instructions_if : List Instruction)
      (instructions_else : List Instruction)
  | RangeLoop (i : Variable) (start : Variable) (end_ : Variable)
      (step : Option Variable) (instructions : List Instruction)
  | Loop (instructions : List Instruction)
  | Stride (dim : Variable) (position : ℕ) (out : Variable)
  | Shape (dim : Variable) (position : ℕ) (out : Variable)
  | Length (var : Variable) (out : Variable)
  | Break
  | Return
deriving Repr

/-- The `register_extension` closure of `register_extensions`
(`wgsl/compiler.rs`): append the extension unless already present. -/
def register_extension (extensions : List Extension) (extension : Extension) :
    List Extension :=
  if extension ∈ extensions then extensions else extensions ++ [extension]

/-- The instruction walk of `register_extensions` (`wgsl/compiler.rs`),
threading the accumulated extension list.  `Powf` registers the primitive
polyfill plus the scalar or component-wise one; `Erf` registers `Erf`;
`Tanh` registers `SafeTanh` only under `cfg(target_os = "macos")`, exposed
here as the `macos` flag; and of the block instructions only `If` is
scanned recursively — `IfElse`, `RangeLoop` and `Loop` fall into the
wildcard arm, exactly as in the source. -/
def register_extensions_walk (macos : Bool) (acc : List Extension) :
    List Instruction → List Extension
  | [] => acc
  | .Powf _ rhs out :: rest =>
    let acc := register_extension acc (.PowfPrimitive out.item)
    let acc :=
      if rhs.is_always_scalar then register_extension acc (.PowfScalar out.item)
      else register_extension acc (.Powf out.item)
    register_extensions_walk macos acc rest
  | .Erf input _ :: rest =>
    register_extensions_walk macos (register_extension acc (.Erf input.item)) rest
  | .Tanh input _ :: rest =>
    let acc := if macos then register_extension acc (.SafeTanh input.item) else acc
    register_extensions_walk macos acc rest
  | .If _ instructions :: rest =>
    let acc := (register_extensions_walk macos [] instructions).foldl register_extension acc
    register_extensions_walk macos acc rest
  | _ :: rest => register_extensions_walk macos acc rest
termination_by l => sizeOf l

/-- `register_extensions(instructions)` (`wgsl/compiler.rs`). -/
def register_extensions (macos : Bool) (instructions : List Instruction) :
    List Extension :=
  register_extensions_walk macos [] instructions

end wgsl

namespace wgsl

/-- Modelled from the spec: a collected shared-memory record
(`SharedMemory::new(id, item, length)`; `wgsl/shader.rs` is not among the
provided sources). -/
structure SharedMemoryDecl where
  index : ℕ
  item : Item
  size : ℕ
deriving DecidableEq, Repr

/-- Modelled from the spec: a collected local-array record
(`LocalArray::new(id, item, depth, length)`). -/
structure LocalArrayDecl where
  index : ℕ
  item : Item
  depth : ℕ
  size : ℕ
deriving DecidableEq, Repr

end wgsl

/-- Modelled from the spec: `ConstantScalarValue::elem()` (the element kind
of a constant; used by `compile_variable` on `ConstantScalar`). -/
def ConstantScalarValue.elem : ConstantScalarValue → Elem
  | .Int _ kind => .Int kind
  | .Float _ kind => .Float kind
  | .UInt _ => .UInt
  | .Bool _ => .Bool

/-- Per-kernel state of the WGSL compiler (`WgslCompiler` in
`wgsl/compiler.rs`): the input/output arity and the referenced-builtin
flags accumulated while lowering variables. -/
structure WgslCompiler where
  num_inputs : ℕ
  num_outputs : ℕ
  local_invocation_index : Bool
  local_invocation_id : Bool
  global_invocation_id : Bool
  workgroup_id : Bool
  rank : Bool
  id : Bool
  stride : Bool
  shape : Bool
  num_workgroups : Bool
  workgroup_id_no_axis : Bool
  workgroup_size_no_axis : Bool
  num_workgroup_no_axis : Bool
  shared_memories : List wgsl.SharedMemoryDecl
  local_arrays : List wgsl.LocalArrayDecl
deriving Repr

/-- `WgslCompiler::default()`. -/
def WgslCompiler.default : WgslCompiler :=
  { num_inputs := 0, num_outputs := 0, local_invocation_index := false,
    local_invocation_id := false, global_invocation_id := false,
    workgroup_id := false, rank := false, id := false, stride := false,
    shape := false, num_workgroups := false, workgroup_id_no_axis := false,
    workgroup_size_no_axis := false, num_workgroup_no_axis := false,
    shared_memories := [], local_arrays := [] }

/-- `WgslCompiler::compile_elem` (`wgsl/compiler.rs`); unsupported element
types panic in the source. -/
def WgslCompiler.compile_elem : Elem → Except String wgsl.Elem
  | .Float .F16 => .error "f16 is not yet supported"
  | .Float .BF16 => .error "bf16 is not a valid WgpuElement"
  | .Float .F32 => .ok .F32
  | .Float .F64 => .error "f64 is not a valid WgpuElement"
  | .Int .I32 => .ok .I32
  | .Int .I64 => .error "i64 is not a valid WgpuElement"
  | .UInt => .ok .U32
  | .Bool => .ok .Bool
  | .AtomicInt .I32 => .ok .AtomicI32
  | .AtomicInt .I64 => .error "atomic<i64> is not a valid WgpuElement"
  | .AtomicUInt => .ok .AtomicU32

/-- `WgslCompiler::compile_item` (`wgsl/compiler.rs`); vectorization factors
outside 1..4 panic in the source. -/
def WgslCompiler.compile_item (item : Item) : Except String wgsl.Item := do
  let elem ← WgslCompiler.compile_elem item.elem
  match item.vectorization with
  | 1 => .ok (.Scalar elem)
  | 2 => .ok (.Vec2 elem)
  | 3 => .ok (.Vec3 elem)
  | 4 => .ok (.Vec4 elem)
  | _ => .error "Unsupported vectorizations scheme"

/-- `WgslCompiler::compile_variable` (`wgsl/compiler.rs`): lower an IR
variable to its WGSL equivalent, recording the referenced-builtin flags and
collecting shared memories / local arrays (deduplicated by id).  `Matrix`
variables panic in the source. -/
def WgslCompiler.compile_variable (c : WgslCompiler) :
    Variable → Except String (wgsl.Variable × WgslCompiler)
  | .GlobalInputArray id item => do
    let item ← WgslCompiler.compile_item item
    .ok (.GlobalInputArray id item, c)
  | .GlobalScalar id elem => do
    let welem ← WgslCompiler.compile_elem elem
    .ok (.GlobalScalar id welem elem, c)
  | .Local id item depth => do
    let item ← WgslCompiler.compile_item item
    .ok (.Local id item depth, c)
  | .Slice id item depth => do
    let item ← WgslCompiler.compile_item item
    .ok (.Slice id item depth, c)
  | .LocalScalar id elem depth => do
    let welem ← WgslCompiler.compile_elem elem
    .ok (.LocalScalar id welem depth, c)
  | .GlobalOutputArray id item => do
    let item ← WgslCompiler.compile_item item
    .ok (.GlobalOutputArray id item, c)
  | .ConstantScalar value => do
    let elem ← WgslCompiler.compile_elem value.elem
    .ok (.ConstantScalar value elem, c)
  | .SharedMemory id item length => do
    let item ← WgslCompiler.compile_item item
    let c :=
      if (c.shared_memories.filter (fun s => s.index = id)).isEmpty then
        { c with shared_memories := c.shared_memories ++ [⟨id, item, length⟩] }
      else c
    .ok (.SharedMemory id item length, c)
  | .LocalArray id item depth length => do
    let item ← WgslCompiler.compile_item item
    let c :=
      if (c.local_arrays.filter (fun s => s.index = id)).isEmpty then
        { c with local_arrays := c.local_arrays ++ [⟨id, item, depth, length⟩] }
      else c
    .ok (.LocalArray id item depth length, c)
  | .AbsolutePos => .ok (.Id, { c with id := true })
  | .Rank => .ok (.Rank, { c with rank := true })
  | .UnitPos => .ok (.LocalInvocationIndex, { c with local_invocation_index := true })
  | .UnitPosX => .ok (.LocalInvocationIdX, { c with local_invocation_id := true })
  | .UnitPosY => .ok (.LocalInvocationIdY, { c with local_invocation_id := true })
  | .UnitPosZ => .ok (.LocalInvocationIdZ, { c with local_invocation_id := true })
  | .CubePosX => .ok (.WorkgroupIdX, { c with workgroup_id := true })
  | .CubePosY => .ok (.WorkgroupIdY, { c with workgroup_id := true })
  | .CubePosZ => .ok (.WorkgroupIdZ, { c with workgroup_id := true })
  | .AbsolutePosX => .ok (.GlobalInvocationIdX, { c with global_invocation_id := true })
  | .AbsolutePosY => .ok (.GlobalInvocationIdY, { c with global_invocation_id := true })
  | .AbsolutePosZ => .ok (.GlobalInvocationIdZ, { c with global_invocation_id := true })
  | .CubeDimX => .ok (.WorkgroupSizeX, c)
  | .CubeDimY => .ok (.WorkgroupSizeY, c)
  | .CubeDimZ => .ok (.WorkgroupSizeZ, c)
  | .CubeCountX => .ok (.NumWorkgroupsX, { c with num_workgroups := true })
  | .CubeCountY => .ok (.NumWorkgroupsY, { c with num_workgroups := true })
  | .CubeCountZ => .ok (.NumWorkgroupsZ, { c with num_workgroups := true })
  | .CubePos => .ok (.WorkgroupId, { c with workgroup_id_no_axis := true })
  | .CubeDim => .ok (.WorkgroupSize, { c with workgroup_size_no_axis := true })
  | .CubeCount => .ok (.NumWorkgroups, { c with num_workgroup_no_axis := true })
  | .SubcubeDim => .ok (.SubgroupSize, c)
  | .Matrix _ _ => .error "Cooperative matrix-multiply and accumulate not supported."

/-- Shared tail of the `Stride` arm of `compile_metadata`: lower the `dim`
and `out` operands (in source field order) and build the instruction at the
already-resolved `info` position. -/
def WgslCompiler.compile_stride_at (c : WgslCompiler) (dim : Variable) (position : ℕ)
    (out : Variable) : Except String (wgsl.Instruction × WgslCompiler) :=
  match c.compile_variable dim with
  | .error msg => .error msg
  | .ok (dimw, c) =>
    match c.compile_variable out with
    | .error msg => .error msg
    | .ok (outw, c) => .ok (.Stride dimw position outw, c)

/-- Shared tail of the `Shape` arm of `compile_metadata`. -/
def WgslCompiler.compile_shape_at (c : WgslCompiler) (dim : Variable) (position : ℕ)
    (out : Variable) : Except String (wgsl.Instruction × WgslCompiler) :=
  match c.compile_variable dim with
  | .error msg => .error msg
  | .ok (dimw, c) =>
    match c.compile_variable out with
    | .error msg => .error msg
    | .ok (outw, c) => .ok (.Shape dimw position outw, c)

/-- `WgslCompiler::compile_metadata` (`wgsl/compiler.rs`): `Stride` and
`Shape` set the corresponding referenced flag and translate the source/target
array into an `info`-buffer position — a `GlobalInputArray` contributes its
id, a `GlobalOutputArray` contributes `num_inputs + id`, and every other
variable kind panics in the source. -/
def WgslCompiler.compile_metadata (c : WgslCompiler) :
    Metadata → Except String (wgsl.Instruction × WgslCompiler)
  | .Stride dim var out =>
    let c := { c with stride := true }
    match var with
    | .GlobalInputArray id _ => c.compile_stride_at dim id out
    | .GlobalOutputArray id _ => c.compile_stride_at dim (c.num_inputs + id) out
    | _ => .error "Only Input and Output have a stride."
  | .Shape dim var out =>
    let c := { c with shape := true }
    match var with
    | .GlobalInputArray id _ => c.compile_shape_at dim id out
    | .GlobalOutputArray id _ => c.compile_shape_at dim (c.num_inputs + id) out
    | _ => .error "Only Input and Output have a shape."
  | .Length var out =>
    match c.compile_variable out with
    | .error msg => .error msg
    | .ok (outw, c) =>
      match c.compile_variable var with
      | .error msg => .error msg
      | .ok (varw, c) => .ok (.Length varw outw, c)

namespace wgsl

/-- Two's-complement `as i32` cast used when rendering an `I32` constant
(`wgsl/base.rs`). -/
def int32_cast (v : ℤ) : ℤ :=
  (v + 2 ^ 31) % 2 ^ 32 - 2 ^ 31

/-- Rendering of a WGSL element type (`Display for Elem`, `wgsl/base.rs`). -/
def Elem.render : Elem → String
  | .F32 => "f32"
  | .I32 => "i32"
  | .AtomicI32 => "atomic<i32>"
  | .U32 => "u32"
  | .AtomicU32 => "atomic<u32>"
  | .Bool => "bool"

/-- Modelled from the spec: rendering of a cube IR element kind
(`Display for cubecl_core::ir::Elem`, used by the `GlobalScalar` arm below;
its defining module is not among the provided sources). -/
def cube_elem_render : Cubecl.Elem → String
  | .Float .F16 => "f16"
  | .Float .BF16 => "bf16"
  | .Float .F32 => "f32"
  | .Float .F64 => "f64"
  | .Int .I32 => "i32"
  | .Int .I64 => "i64"
  | .AtomicInt .I32 => "atomic<i32>"
  | .AtomicInt .I64 => "atomic<i64>"
  | .UInt => "u32"
  | .AtomicUInt => "atomic<u32>"
  | .Bool => "bool"

/-- Rendering of a WGSL variable name (`Display for Variable`,
`wgsl/base.rs`).  The two `f16`/`bf16` constant arms are `todo!()` panics in
the source and the `f32`/`f64` literal formatting is floating-point and
outside the embedding; all four render a fixed placeholder here and no
result below depends on them. -/
def Variable.render : Variable → String
  | .GlobalInputArray number _ => "input_" ++ toString number ++ "_global"
  | .LocalScalar index _ scope_depth =>
    "s_" ++ toString scope_depth ++ "_" ++ toString index
  | .Local index _ scope_depth =>
    "l_" ++ toString scope_depth ++ "_" ++ toString index
  | .Named name _ _ => name
  | .Slice index _ scope_depth =>
    "slice_" ++ toString scope_depth ++ "_" ++ toString index
  | .GlobalOutputArray number _ => "output_" ++ toString number ++ "_global"
  | .GlobalScalar number _ elem =>
    "scalars_" ++ cube_elem_render elem ++ "[" ++ toString number ++ "]"
  | .ConstantScalar (.Int value .I32) _ => toString (int32_cast value) ++ "i"
  | .ConstantScalar (.Int value .I64) _ => toString value ++ "i"
  | .ConstantScalar (.Float _ _) _ => "unsupported_float_literal"
  | .ConstantScalar (.UInt value) _ => toString (value % 2 ^ 32) ++ "u"
  | .ConstantScalar (.Bool value) _ => toString value
  | .SharedMemory number _ _ => "shared_memory_" ++ toString number
  | .LocalArray number _ scope_depth _ =>
    "a_" ++ toString scope_depth ++ "_" ++ toString number
  | .Id => "id"
  | .LocalInvocationIndex => "local_idx"
  | .LocalInvocationIdX => "local_invocation_id.x"
  | .LocalInvocationIdY => "local_invocation_id.y"
  | .LocalInvocationIdZ => "local_invocation_id.z"
  | .Rank => "rank"
  | .WorkgroupId => "workgroup_id_no_axis"
  | .WorkgroupIdX => "workgroup_id.x"
  | .WorkgroupIdY => "workgroup_id.y"
  | .WorkgroupIdZ => "workgroup_id.z"
  | .GlobalInvocationIdX => "global_id.x"
  | .GlobalInvocationIdY => "global_id.y"
  | .GlobalInvocationIdZ => "global_id.z"
  | .WorkgroupSizeX => "WORKGROUP_SIZE_X"
  | .WorkgroupSizeY => "WORKGROUP_SIZE_Y"
  | .WorkgroupSizeZ => "WORKGROUP_SIZE_Z"
  | .NumWorkgroupsX => "num_workgroups.x"
  | .NumWorkgroupsY => "num_workgroups.y"
  | .NumWorkgroupsZ => "num_workgroups.z"
  | .WorkgroupSize => "workgroup_size_no_axis"
  | .NumWorkgroups => "num_workgroups_no_axis"
  | .SubgroupSize => "subgroup_size"

/-- Rendering of `Instruction::Stride` (`Display for Instruction`,
`wgsl/instructions.rs`): `{out} = info[({position}u * rank_2) + {dim} + 1u];`. -/
def render_stride (dim : Variable) (position : ℕ) (out : Variable) : String :=
  out.render ++ " = info[(" ++ toString position ++ "u * rank_2) + "
    ++ dim.render ++ " + 1u];\n"

/-- Rendering of `Instruction::Shape` (`Display for Instruction`,
`wgsl/instructions.rs`):
`{out} = info[({position}u * rank_2) + rank + {dim} + 1u];`. -/
def render_shape (dim : Variable) (position : ℕ) (out : Variable) : String :=
  out.render ++ " = info[(" ++ toString position ++ "u * rank_2) + rank + "
    ++ dim.render ++ " + 1u];\n"

end wgsl

/-- Execution mode of a kernel launch (`cubecl_runtime::ExecutionMode`):
`Checked` lowers with bounds-checked index procedures, `Unchecked` without. -/
inductive ExecutionMode where
  | Checked
  | Unchecked
deriving DecidableEq, Repr

/-- Modelled from the spec: a `KernelId` together with the effect of
`KernelId::mode(mode)` (its defining module is not among the provided
sources).  Per the spec, the backend output id together with the execution
mode forms the pipeline-cache key, so the id is a base identity paired with
the recorded mode. -/
structure KernelId where
  base : ℕ
  mode : Option ExecutionMode
deriving DecidableEq, Repr

/-- A kernel object (`Box<dyn CubeTask>`): only its stable id is observable
to the pipeline cache. -/
structure CubeKernel where
  id : ℕ
deriving DecidableEq, Repr

/-- The association-list view of the server's `HashMap<KernelId, Pipeline>`;
pipelines are carried as numeric handles. -/
def find_pipeline (ps : List (KernelId × ℕ)) (kernel_id : KernelId) : Option ℕ :=
  match ps with
  | [] => none
  | (k, v) :: rest => if k = kernel_id then some v else find_pipeline rest kernel_id

/-- State of `WgpuServer` (`wgpu/compute/server.rs`) as far as the pipeline
cache and the command-batching counters observe it.  `submissions` counts
`queue.submit` calls and `compile_source_calls` counts `compile_source`
invocations; the encoder, passes, bindings and memory management act only on
the GPU side and are not modelled. -/
structure WgpuServer where
  tasks_count : ℕ
  tasks_max : ℕ
  pipelines : List (KernelId × ℕ)
  compile_source_calls : ℕ
  submissions : ℕ
deriving Repr

/-- `WgpuServer::pipeline(kernel, mode)`: stamp the mode into the kernel id,
return the cached pipeline when present, otherwise compile
(`kernel.compile(mode)` + `compile_source`) and insert the handle under the
stamped id. -/
def WgpuServer.pipeline (s : WgpuServer) (kernel : CubeKernel) (mode : ExecutionMode) :
    ℕ × WgpuServer :=
  let kernel_id : KernelId := { base := kernel.id, mode := some mode }
  match find_pipeline s.pipelines kernel_id with
  | some pipeline => (pipeline, s)
  | none =>
    let pipeline := s.compile_source_calls + 1
    (pipeline,
      { s with
        pipelines := s.pipelines ++ [(kernel_id, pipeline)],
        compile_source_calls := s.compile_source_calls + 1 })

/-- `WgpuServer::sync(type)`: close the pass, submit the encoder (one
`queue.submit`), and reset the batching counter.  The `Wait` variant
additionally polls the device, which has no host-visible state. -/
def WgpuServer.sync (s : WgpuServer) : WgpuServer :=
  { s with submissions := s.submissions + 1, tasks_count := 0 }

/-- `WgpuServer::execute(kernel, .., mode)`: fetch-or-compile the pipeline,
record the dispatch, bump the task counter, and flush (`sync(Flush)`) once it
reaches `tasks_max`. -/
def WgpuServer.execute (s : WgpuServer) (kernel : CubeKernel) (mode : ExecutionMode) :
    WgpuServer :=
  let (_pipeline, s) := s.pipeline kernel mode
  let s := { s with tasks_count := s.tasks_count + 1 }
  if s.tasks_max ≤ s.tasks_count then s.sync else s

/-- A sequence of `execute` calls (no intervening `read` or `sync`). -/
def WgpuServer.run_executes (s : WgpuServer) :
    List (CubeKernel × ExecutionMode) → WgpuServer
  | [] => s
  | (kernel, mode) :: rest => (s.execute kernel mode).run_executes rest

/-- Is the operation a read procedure (`ReadGlobal` / `ReadGlobalWithLayout`)? -/
def Operation.is_read_proc : Operation → Bool
  | .Procedure (.ReadGlobal _) => true
  | .Procedure (.ReadGlobalWithLayout _) => true
  | _ => false

/-- Is the operation a `WriteGlobal` procedure? -/
def Operation.is_write_proc : Operation → Bool
  | .Procedure (.WriteGlobal _) => true
  | _ => false

/-- Is the operation an `EarlyReturn` procedure? -/
def Operation.is_early_return : Operation → Bool
  | .Procedure (.EarlyReturn _) => true
  | _ => false

/-- Is the operation a scalar-read `Assign` (an `Assign` whose source is a
`GlobalScalar`)? -/
def Operation.is_scalar_read_assign : Operation → Bool
  | .Operator (.Assign op) =>
    match op.input with
    | .GlobalScalar _ _ => true
    | _ => false
  | _ => false

/-- C10: `read_array` on a `Bool` item records a deferred read whose
`GlobalInputArray` has element type `UInt` at the item's vectorization while
the local destination returned to the caller keeps the original `Bool` item;
for any other element type the recorded global carries the original item
unchanged.  In both cases the destination is a fresh `Local` at the scope's
depth, declared in `locals` and recorded in `reads_global` with the
`OutputLayout` strategy. -/
theorem c10_read_array_bool_item (s : Scope) (index : ℕ) (item : Item)
    (position : Variable) :
    (s.read_array index item position).2 = .Local s.new_local_index item s.depth ∧
    (s.read_array index item position).1.reads_global =
      s.reads_global ++ [(.GlobalInputArray index
        (if item.elem = .Bool then
          { elem := .UInt, vectorization := item.vectorization }
         else item),
        .OutputLayout, .Local s.new_local_index item s.depth, position)] ∧
    (s.read_array index item position).1.locals =
      s.locals ++ [.Local s.new_local_index item s.depth] := by
  obtain ⟨d, ops, lo, ma, sl, sh, la, rg, io, wg, rs, lr, un⟩ := s
  obtain ⟨elem, vect⟩ := item
  cases elem <;>
    simp [Scope.read_array, Scope.read_input_strategy, Scope.new_local_index,
      Scope.depth, Scope.locals, Scope.reads_global, Scope.undeclared]

/-- An `Erf` instruction on scalar `f32` locals, used to probe extension
collection. -/
def c3_erf_instruction : wgsl.Instruction :=
  .Erf (.Local 0 (.Scalar .F32) 0) (.Local 1 (.Scalar .F32) 0)

/-- A `Powf` instruction whose right-hand side is not always-scalar,
likewise. -/
def c3_powf_instruction : wgsl.Instruction :=
  .Powf (.Local 0 (.Scalar .F32) 0) (.Local 1 (.Scalar .F32) 0)
    (.Local 2 (.Scalar .F32) 0)

/-- A boolean condition variable for block instructions. -/
def c3_cond : wgsl.Variable := .Local 3 (.Scalar .Bool) 0

/-- C3: `register_extensions` collects the `erf` (and `powf`) polyfills from
top-level instructions and from instructions nested inside `If` blocks, but
misses the same instructions when they are nested inside `IfElse`, `Loop` or
`RangeLoop` blocks — those fall into the wildcard arm of the match, so the
required extension never appears and the emitted shader calls an undefined
helper function. -/
theorem c3_register_extensions_nesting :
    wgsl.register_extensions false [c3_erf_instruction]
      = [.Erf (.Scalar .F32)] ∧
    wgsl.register_extensions false [.If c3_cond [c3_erf_instruction]]
      = [.Erf (.Scalar .F32)] ∧
    wgsl.register_extensions false [.Loop [c3_erf_instruction]] = [] ∧
    wgsl.register_extensions false [.IfElse c3_cond [c3_erf_instruction] []] = [] ∧
    wgsl.register_extensions false
      [.RangeLoop (.Local 4 (.Scalar .U32) 1) (.ConstantScalar (.UInt 0) .U32)
        (.ConstantScalar (.UInt 4) .U32) none [c3_erf_instruction]] = [] ∧
    wgsl.register_extensions false [.Loop [c3_powf_instruction]] = [] := by
  refine ⟨?_, ?_, ?_, ?_, ?_, ?_⟩ <;>
    simp [wgsl.register_extensions, wgsl.register_extensions_walk,
      wgsl.register_extension, c3_erf_instruction, c3_powf_instruction, c3_cond,
      wgsl.Variable.item]

/-- The condition closure of the C2 probe: allocate a `Bool` local in the
handed context, emit a comparison into it, and return it — the shape the
macro generates for `while x < 10`. -/
def c2_cond_fn (c : CubeContext) : CubeContext × ExpandElement :=
  let (s, v) := c.scope.create_local (Item.new .Bool)
  (⟨s.register (.Operator (.Lower ⟨.AbsolutePos, .ConstantScalar (.UInt 10), v⟩))⟩, v)

/-- The body closure of the C2 probe: one registered operation. -/
def c2_body (c : CubeContext) : CubeContext :=
  c.register (.Operator (.Assign ⟨.ConstantScalar (.UInt 1), .Local 0 (Item.new .UInt) 0⟩))

/-- The scope `while_loop_expand` actually produces for the C2 probe: a
single `Loop` whose child scope holds the condition computation, then
`If { cond, scope: [Break] }` — the condition variable itself, with no
negation emitted anywhere — then the body. -/
def c2_expected : Scope :=
  .mk 0 [.Branch (.Loop (.mk 1
    [.Operator (.Lower ⟨.AbsolutePos, .ConstantScalar (.UInt 10), .Local 0 (Item.new .Bool) 1⟩),
     .Branch (.If (.Local 0 (Item.new .Bool) 1)
       (.mk 2 [.Branch .Break] [] [] [] [] [] [] [] [] [] none 0)),
     .Operator (.Assign ⟨.ConstantScalar (.UInt 1), .Local 0 (Item.new .UInt) 0⟩)]
    [.Local 0 (Item.new .Bool) 1] [] [] [] [] [] [] [] [] none 0))]
    [] [] [] [] [] [] [] [] [] none 0

/-- C2: evaluating `while_loop_expand` at the probe input shows the emitted
`If` guards the `Break` with the condition produced by `cond_fn` itself
(`Local 0 Bool 1`), not with its negation — no `Not` operation and no negated
condition appears anywhere in the emitted loop scope, so the loop breaks
exactly when the `while` condition holds. -/
theorem c2_while_loop_condition_unnegated :
    (while_loop_expand ⟨Scope.root⟩ c2_cond_fn c2_body).scope = c2_expected ∧
    (c2_cond_fn (CubeContext.child ⟨Scope.root⟩)).2 = .Local 0 (Item.new .Bool) 1 := by
  exact ⟨rfl, rfl⟩

/-- Ceiling division, the quantity the claim predicted for the number of
submissions. -/
def ceil_div (a b : ℕ) : ℕ := (a + b - 1) / b

/-- Fields of the server state are untouched by a pipeline-cache access
except for the pipeline map and the compile counter. -/
theorem WgpuServer.pipeline_preserves_batching (s : WgpuServer) (kernel : CubeKernel)
    (mode : ExecutionMode) :
    ((s.pipeline kernel mode).2).tasks_count = s.tasks_count ∧
    ((s.pipeline kernel mode).2).tasks_max = s.tasks_max ∧
    ((s.pipeline kernel mode).2).submissions = s.submissions := by
  simp only [WgpuServer.pipeline]
  split <;> simp

/-- Field effect of a single `execute`: the cap is preserved; the counter
increments or, on flush, resets; a flush performs one submission. -/
theorem WgpuServer.execute_fields (s : WgpuServer) (k : CubeKernel) (m : ExecutionMode) :
    (s.execute k m).tasks_max = s.tasks_max ∧
    (s.execute k m).tasks_count
      = (if s.tasks_max ≤ s.tasks_count + 1 then 0 else s.tasks_count + 1) ∧
    (s.execute k m).submissions
      = (if s.tasks_max ≤ s.tasks_count + 1 then s.submissions + 1 else s.submissions) := by
  obtain ⟨hc, hm, hb⟩ := s.pipeline_preserves_batching k m
  simp only [WgpuServer.execute]
  cases hp : s.pipeline k m with
  | mk p s1 =>
    rw [hp] at hc hm hb
    simp only at hc hm hb
    rw [hc, hm] at *
    split <;> simp_all [WgpuServer.sync]

/-- C6 (amended): starting below the cap, a sequence of `k` `execute` calls
performs exactly `(tasks_count + k) / tasks_max` queue submissions — i.e.
`⌊k / tasks_max⌋` from a clean state, not `⌈k / tasks_max⌉` — leaves
`(tasks_count + k) % tasks_max` tasks pending, preserves the cap, and a
following `sync` submits once more.  In particular the counter is reset by
each flush, so at most `tasks_max` dispatches are recorded between
submissions. -/
theorem c6_task_batching (s : WgpuServer) (calls : List (CubeKernel × ExecutionMode))
    (h : s.tasks_count < s.tasks_max) :
    (s.run_executes calls).submissions
        = s.submissions + (s.tasks_count + calls.length) / s.tasks_max ∧
    (s.run_executes calls).tasks_count
        = (s.tasks_count + calls.length) % s.tasks_max ∧
    (s.run_executes calls).tasks_max = s.tasks_max ∧
    ((s.run_executes calls).sync).submissions
        = s.submissions + (s.tasks_count + calls.length) / s.tasks_max + 1 := by
  induction calls generalizing s with
  | nil =>
    simp [WgpuServer.run_executes, WgpuServer.sync,
      Nat.div_eq_of_lt h, Nat.mod_eq_of_lt h]
  | cons km rest ih =>
    obtain ⟨k, m⟩ := km
    simp only [WgpuServer.run_executes, List.length_cons]
    obtain ⟨hm, hc, hb⟩ := s.execute_fields k m
    by_cases hflush : s.tasks_max ≤ s.tasks_count + 1
    · have hT : s.tasks_count + 1 = s.tasks_max := by omega
      have h0 : (0 : ℕ) < s.tasks_max := by omega
      have hc2 : (s.execute k m).tasks_count = 0 := by rw [hc, if_pos hflush]
      have hb2 : (s.execute k m).submissions = s.submissions + 1 := by
        rw [hb, if_pos hflush]
      obtain ⟨ih1, ih2, ih3, ih4⟩ := ih (s.execute k m) (by rw [hc2, hm]; omega)
      simp only [hm, hc2, hb2, Nat.zero_add] at ih1 ih2 ih3 ih4
      have harith : s.tasks_count + (rest.length + 1) = rest.length + s.tasks_max := by
        omega
      rw [ih1, ih2, ih3, ih4, harith, Nat.add_div_right _ h0, Nat.add_mod_right]
      omega
    · have hc2 : (s.execute k m).tasks_count = s.tasks_count + 1 := by
        rw [hc, if_neg hflush]
      have hb2 : (s.execute k m).submissions = s.submissions := by
        rw [hb, if_neg hflush]
      obtain ⟨ih1, ih2, ih3, ih4⟩ := ih (s.execute k m) (by rw [hc2, hm]; omega)
      simp only [hm, hc2, hb2] at ih1 ih2 ih3 ih4
      have harith : s.tasks_count + 1 + rest.length
          = s.tasks_count + (rest.length + 1) := by omega
      simp only [harith] at ih1 ih2 ih4
      exact ⟨ih1, ih2, ih3, ih4⟩

/-- A fresh server with `tasks_max = 2`. -/
def c6_server : WgpuServer :=
  { tasks_count := 0, tasks_max := 2, pipelines := [], compile_source_calls := 0,
    submissions := 0 }

/-- Five `execute` calls of the same checked kernel. -/
def c6_calls : List (CubeKernel × ExecutionMode) :=
  List.replicate 5 (⟨0⟩, .Checked)

/-- C6 counterexample: five `execute` calls with `tasks_max = 2` trigger 2
submissions (the flush fires on the 2nd and 4th call), not `⌈5 / 2⌉ = 3` as
the claim states. -/
theorem c6_counterexample :
    (c6_server.run_executes c6_calls).submissions = 2 ∧
    ceil_div c6_calls.length c6_server.tasks_max = 3 ∧
    (c6_server.run_executes c6_calls).submissions
      ≠ ceil_div c6_calls.length c6_server.tasks_max := by
  refine ⟨by decide, by decide, by decide⟩

/-- Witness for `c6_task_batching` at the concrete five-call run. -/
theorem c6_task_batching_witness :
    c6_server.tasks_count < c6_server.tasks_max ∧
    (c6_server.run_executes c6_calls).submissions
      = c6_server.submissions
        + (c6_server.tasks_count + c6_calls.length) / c6_server.tasks_max :=
  ⟨by decide, (c6_task_batching c6_server c6_calls (by decide)).1⟩

/-- Looking up an association list extended on the right finds the old
binding first and falls back to the new one. -/
theorem find_pipeline_append (ps : List (KernelId × ℕ)) (kid kid2 : KernelId) (p : ℕ) :
    find_pipeline (ps ++ [(kid2, p)]) kid
      = match find_pipeline ps kid with
        | some v => some v
        | none => if kid2 = kid then some p else none := by
  induction ps with
  | nil => simp [find_pipeline]
  | cons kv rest ih =>
    obtain ⟨k, v⟩ := kv
    by_cases hk : k = kid <;> simp [find_pipeline, hk, ih]

/-- Cache behaviour of one `pipeline` call: afterwards the stamped id is
cached; at most one compilation happens, exactly one on a cache miss; and
other keys are untouched. -/
theorem WgpuServer.pipeline_cache_fields (s : WgpuServer) (kernel : CubeKernel)
    (mode : ExecutionMode) :
    find_pipeline ((s.pipeline kernel mode).2).pipelines ⟨kernel.id, some mode⟩
        = some (s.pipeline kernel mode).1 ∧
    ((s.pipeline kernel mode).2).compile_source_calls ≤ s.compile_source_calls + 1 ∧
    (find_pipeline s.pipelines ⟨kernel.id, some mode⟩ = none →
        ((s.pipeline kernel mode).2).compile_source_calls = s.compile_source_calls + 1) ∧
    (find_pipeline s.pipelines ⟨kernel.id, some mode⟩ ≠ none →
        (s.pipeline kernel mode).2 = s) ∧
    (∀ kid : KernelId, kid ≠ ⟨kernel.id, some mode⟩ →
        find_pipeline ((s.pipeline kernel mode).2).pipelines kid
          = find_pipeline s.pipelines kid) := by
  simp only [WgpuServer.pipeline]
  cases hf : find_pipeline s.pipelines ⟨kernel.id, some mode⟩ with
  | some p => simp [hf]
  | none =>
    simp only [hf]
    refine ⟨?_, by simp, by simp, by simp, ?_⟩
    · simp [find_pipeline_append, hf]
    · intro kid hkid
      simp only [find_pipeline_append]
      cases hf2 : find_pipeline s.pipelines kid with
      | some v => simp
      | none =>
        simp only
        rw [if_neg (fun he => hkid he.symm)]

/-- The pipeline map and the compile counter after `execute` are those left
by its `pipeline` call (the batching tail of `execute` touches neither). -/
theorem WgpuServer.execute_cache_fields (s : WgpuServer) (kernel : CubeKernel)
    (mode : ExecutionMode) :
    (s.execute kernel mode).pipelines = ((s.pipeline kernel mode).2).pipelines ∧
    (s.execute kernel mode).compile_source_calls
      = ((s.pipeline kernel mode).2).compile_source_calls := by
  simp only [WgpuServer.execute]
  cases hp : s.pipeline kernel mode with
  | mk p s1 =>
    split <;> simp [WgpuServer.sync]

/-- C7: a repeated `execute` with the same kernel and mode compiles nothing
new (the second call hits the pipeline cache), a single `execute` compiles at
most once, the `Checked` and `Unchecked` stamps of one kernel are distinct
cache keys, and when neither mode is cached, running the kernel once per mode
compiles twice. -/
theorem c7_pipeline_cache (s : WgpuServer) (kernel : CubeKernel) (mode : ExecutionMode) :
    ((s.execute kernel mode).execute kernel mode).compile_source_calls
        = (s.execute kernel mode).compile_source_calls ∧
    (s.execute kernel mode).compile_source_calls ≤ s.compile_source_calls + 1 ∧
    (⟨kernel.id, some .Checked⟩ : KernelId) ≠ ⟨kernel.id, some .Unchecked⟩ ∧
    (find_pipeline s.pipelines ⟨kernel.id, some .Checked⟩ = none →
     find_pipeline s.pipelines ⟨kernel.id, some .Unchecked⟩ = none →
     ((s.execute kernel .Checked).execute kernel .Unchecked).compile_source_calls
        = s.compile_source_calls + 2) := by
  obtain ⟨hpc, hle, _hmiss, _hhit, _hother⟩ := s.pipeline_cache_fields kernel mode
  obtain ⟨hep, hec⟩ := s.execute_cache_fields kernel mode
  refine ⟨?_, ?_, by simp, ?_⟩
  · obtain ⟨_hep2, hec2⟩ := (s.execute kernel mode).execute_cache_fields kernel mode
    obtain ⟨_, _, _, hhit2, _⟩ := (s.execute kernel mode).pipeline_cache_fields kernel mode
    rw [hec2]
    have hfound : find_pipeline (s.execute kernel mode).pipelines
        ⟨kernel.id, some mode⟩ ≠ none := by
      rw [hep, hpc]; simp
    rw [hhit2 hfound]
  · rw [hec]; exact hle
  · intro h1 h2
    obtain ⟨_, _, hmissC, _, hotherC⟩ := s.pipeline_cache_fields kernel .Checked
    obtain ⟨hepC, hecC⟩ := s.execute_cache_fields kernel .Checked
    obtain ⟨hepU, hecU⟩ := (s.execute kernel .Checked).execute_cache_fields kernel .Unchecked
    obtain ⟨_, _, hmissU, _, _⟩ :=
      (s.execute kernel .Checked).pipeline_cache_fields kernel .Unchecked
    have hU_none : find_pipeline (s.execute kernel .Checked).pipelines
        ⟨kernel.id, some .Unchecked⟩ = none := by
      rw [hepC, hotherC _ (by simp), h2]
    rw [hecU, hmissU hU_none, hecC, hmissC h1]

/-- A fresh server for the C7 witness. -/
def c7_server : WgpuServer :=
  { tasks_count := 0, tasks_max := 16, pipelines := [], compile_source_calls := 0,
    submissions := 0 }

/-- Witness for `c7_pipeline_cache` at a fresh server and kernel 7. -/
theorem c7_pipeline_cache_witness :
    find_pipeline c7_server.pipelines ⟨(⟨7⟩ : CubeKernel).id, some .Checked⟩ = none ∧
    find_pipeline c7_server.pipelines ⟨(⟨7⟩ : CubeKernel).id, some .Unchecked⟩ = none ∧
    ((c7_server.execute ⟨7⟩ .Checked).execute ⟨7⟩ .Unchecked).compile_source_calls
      = c7_server.compile_source_calls + 2 :=
  ⟨rfl, rfl, (c7_pipeline_cache c7_server ⟨7⟩ .Checked).2.2.2 rfl rfl⟩

/-- C8: the backend lowers `Metadata::Stride` on a `GlobalInputArray` with
id `i` to `Instruction::Stride` at `info` position `i`, on a
`GlobalOutputArray` to position `num_inputs + i`; `Metadata::Shape`
analogously; the rendered WGSL for position `p`, dimension `d`, output `o`
is `o = info[(p u * rank_2) + d + 1u];` for strides and
`o = info[(p u * rank_2) + rank + d + 1u];` for shapes; and any other
variable kind passed as the array of a stride/shape lowering is rejected
(a panic in the source). -/
theorem c8_metadata_info_layout (c : WgslCompiler) (dim out : Variable) :
    (∀ id item, c.compile_metadata (.Stride dim (.GlobalInputArray id item) out)
        = ({ c with stride := true }).compile_stride_at dim id out) ∧
    (∀ id item, c.compile_metadata (.Stride dim (.GlobalOutputArray id item) out)
        = ({ c with stride := true }).compile_stride_at dim (c.num_inputs + id) out) ∧
    (∀ id item, c.compile_metadata (.Shape dim (.GlobalInputArray id item) out)
        = ({ c with shape := true }).compile_shape_at dim id out) ∧
    (∀ id item, c.compile_metadata (.Shape dim (.GlobalOutputArray id item) out)
        = ({ c with shape := true }).compile_shape_at dim (c.num_inputs + id) out) ∧
    (∀ c2 position instr,
      c.compile_stride_at dim position out = .ok (instr, c2) →
      ∃ dimw outw, instr = .Stride dimw position outw ∧
        wgsl.render_stride dimw position outw
          = outw.render ++ " = info[(" ++ toString position ++ "u * rank_2) + "
              ++ dimw.render ++ " + 1u];\n") ∧
    (∀ c2 position instr,
      c.compile_shape_at dim position out = .ok (instr, c2) →
      ∃ dimw outw, instr = .Shape dimw position outw ∧
        wgsl.render_shape dimw position outw
          = outw.render ++ " = info[(" ++ toString position ++ "u * rank_2) + rank + "
              ++ dimw.render ++ " + 1u];\n") ∧
    (∀ var : Variable, (∀ id item, var ≠ .GlobalInputArray id item) →
      (∀ id item, var ≠ .GlobalOutputArray id item) →
      c.compile_metadata (.Stride dim var out)
          = .error "Only Input and Output have a stride." ∧
      c.compile_metadata (.Shape dim var out)
          = .error "Only Input and Output have a shape.") := by
  refine ⟨fun id item => rfl, fun id item => rfl, fun id item => rfl, fun id item => rfl,
    fun c2 position instr h => ?_, fun c2 position instr h => ?_,
    fun var hin hout => ?_⟩
  · rw [WgslCompiler.compile_stride_at] at h
    cases hd : c.compile_variable dim with
    | error msg => rw [hd] at h; cases h
    | ok pr =>
      obtain ⟨dimw, c1⟩ := pr
      rw [hd] at h
      simp only at h
      cases ho : c1.compile_variable out with
      | error msg => rw [ho] at h; cases h
      | ok pr2 =>
        obtain ⟨outw, c3⟩ := pr2
        rw [ho] at h
        simp only [Except.ok.injEq, Prod.mk.injEq] at h
        exact ⟨dimw, outw, h.1.symm, rfl⟩
  · rw [WgslCompiler.compile_shape_at] at h
    cases hd : c.compile_variable dim with
    | error msg => rw [hd] at h; cases h
    | ok pr =>
      obtain ⟨dimw, c1⟩ := pr
      rw [hd] at h
      simp only at h
      cases ho : c1.compile_variable out with
      | error msg => rw [ho] at h; cases h
      | ok pr2 =>
        obtain ⟨outw, c3⟩ := pr2
        rw [ho] at h
        simp only [Except.ok.injEq, Prod.mk.injEq] at h
        exact ⟨dimw, outw, h.1.symm, rfl⟩
  cases var with
  | GlobalInputArray id item => exact absurd rfl (hin id item)
  | GlobalOutputArray id item => exact absurd rfl (hout id item)
  | _ => exact ⟨rfl, rfl⟩

/-- Witness for `c8_metadata_info_layout`: a compiler with three inputs,
lowering the stride of output 2 in dimension `l_0_0` into `l_0_1`, lands at
position `3 + 2` and renders the `info` access at that position. -/
theorem c8_metadata_info_layout_witness :
    ({ WgslCompiler.default with num_inputs := 3 }).compile_metadata
        (.Stride (.Local 0 (Item.new .UInt) 0) (.GlobalOutputArray 2 (Item.new .UInt))
          (.Local 1 (Item.new .UInt) 0))
      = ({ { WgslCompiler.default with num_inputs := 3 } with
          stride := true }).compile_stride_at (.Local 0 (Item.new .UInt) 0) (3 + 2)
          (.Local 1 (Item.new .UInt) 0) ∧
    wgsl.render_stride (.Local 0 (.Scalar .U32) 0) 5 (.Local 1 (.Scalar .U32) 0)
      = "l_0_1 = info[(5u * rank_2) + l_0_0 + 1u];\n" ∧
    ({ WgslCompiler.default with num_inputs := 3 }).compile_metadata
        (.Stride (.Local 0 (Item.new .UInt) 0) (.Rank) (.Local 1 (Item.new .UInt) 0))
      = .error "Only Input and Output have a stride." := by
  refine ⟨?_, by decide, ?_⟩
  · exact ((c8_metadata_info_layout { WgslCompiler.default with num_inputs := 3 }
      (.Local 0 (Item.new .UInt) 0) (.Local 1 (Item.new .UInt) 0)).2.1) 2 (Item.new .UInt)
  · exact (((c8_metadata_info_layout { WgslCompiler.default with num_inputs := 3 }
      (.Local 0 (Item.new .UInt) 0) (.Local 1 (Item.new .UInt) 0)).2.2.2.2.2.2)
      .Rank (fun id item h => by cases h) (fun id item h => by cases h)).1

/-- A compiled deferred read is a read procedure. -/
theorem compile_read_ok_is_read {lr : Option Variable}
    {e : Variable × ReadingStrategy × Variable × Variable} {op : Operation}
    (h : compile_read lr e = .ok op) : op.is_read_proc = true := by
  obtain ⟨input, strat, lv, pos⟩ := e
  cases strat with
  | OutputLayout =>
    cases lr with
    | none => simp [compile_read] at h
    | some l =>
      simp only [compile_read, Except.ok.injEq] at h
      subst h; rfl
  | Plain =>
    simp only [compile_read, Except.ok.injEq] at h
    subst h; rfl

/-- Every operation produced by the reads drain is a read procedure. -/
theorem compile_reads_ok_reads {lr : Option Variable} :
    ∀ {l : List (Variable × ReadingStrategy × Variable × Variable)}
      {out : List Operation}, compile_reads lr l = .ok out →
      ∀ op ∈ out, op.is_read_proc = true := by
  intro l
  induction l with
  | nil =>
    intro out h op hop
    simp only [compile_reads, Except.ok.injEq] at h
    subst h
    simp at hop
  | cons e rest ih =>
    intro out h op hop
    simp only [compile_reads] at h
    cases he : compile_read lr e with
    | error msg => rw [he] at h; cases h
    | ok o =>
      rw [he] at h
      simp only at h
      cases hr : compile_reads lr rest with
      | error msg => rw [hr] at h; cases h
      | ok os =>
        rw [hr] at h
        simp only [Except.ok.injEq] at h
        subst h
        rcases List.mem_cons.mp hop with hop | hop
        · subst hop; exact compile_read_ok_is_read he
        · exact ih hr op hop

/-- Is the operation an `Assign` operator? -/
def Operation.is_assign : Operation → Bool
  | .Operator (.Assign _) => true
  | _ => false

/-- Every operation produced by the scalar drain is an assign; when the
recorded sources are `GlobalScalar`s (as `read_scalar` always records them),
each is a scalar-read assign. -/
theorem scalar_read_ops_assigns (rs : List (Variable × Variable)) :
    (∀ op ∈ scalar_read_ops rs, op.is_assign = true) ∧
    ((∀ e ∈ rs, ∃ id elem, e.2 = Variable.GlobalScalar id elem) →
      ∀ op ∈ scalar_read_ops rs, op.is_scalar_read_assign = true) := by
  constructor
  · intro op hop
    obtain ⟨⟨lv, sc⟩, _, rfl⟩ := List.mem_map.mp hop
    rfl
  · intro hrs op hop
    obtain ⟨⟨lv, sc⟩, hmem, rfl⟩ := List.mem_map.mp hop
    obtain ⟨id, elem, h2⟩ := hrs _ hmem
    simp only at h2
    subst h2
    rfl

/-- Every operation produced by the write drain is a `WriteGlobal`. -/
theorem write_ops_writes (wg : List (Variable × Variable × Variable)) :
    ∀ op ∈ write_ops wg, op.is_write_proc = true := by
  intro op hop
  obtain ⟨⟨i, g, pos⟩, _, rfl⟩ := List.mem_map.mp hop
  rfl

/-- The early-return guard holds only `EarlyReturn` procedures. -/
theorem guard_ops_early (d : ℕ) (wg : List (Variable × Variable × Variable)) :
    ∀ op ∈ guard_ops d wg, op.is_early_return = true := by
  intro op hop
  unfold guard_ops at hop
  cases wg with
  | nil => simp at hop
  | cons w rest =>
    obtain ⟨i, g, pos⟩ := w
    simp only [List.head?_cons] at hop
    by_cases hd : d = 0 <;> simp [hd] at hop
    subst hop; rfl

/-- Decomposition of a successful `process()`: the finalized variable list
and the five ordered operation segments. -/
theorem process_ok_decomposition (s : Scope) (p : ScopeProcessing)
    (h : s.process = .ok p) :
    ∃ (registered reads : List Operation),
      backfill_layout s.layout_ref s.operations
          s.index_offset_with_output_layout_position = .ok registered ∧
      compile_reads s.layout_ref s.reads_global = .ok reads ∧
      p.operations = guard_ops s.depth s.writes_global ++ reads
        ++ scalar_read_ops s.reads_scalar ++ registered ++ write_ops s.writes_global ∧
      p.«variables» = s.locals ++ s.matrices ++ s.slices
        ++ s.reads_scalar.map (fun e => e.1) := by
  obtain ⟨d, ops, lo, ma, sl, sh, la, rg, io, wg, rs, lr, un⟩ := s
  simp only [Scope.process, Scope.layout_ref, Scope.operations,
    Scope.index_offset_with_output_layout_position, Scope.reads_global, Scope.depth,
    Scope.writes_global, Scope.reads_scalar, Scope.locals, Scope.matrices,
    Scope.slices] at h ⊢
  cases hb : backfill_layout lr ops io with
  | error msg => rw [hb] at h; cases h
  | ok registered =>
    rw [hb] at h
    simp only at h
    cases hr : compile_reads lr rg with
    | error msg => rw [hr] at h; cases h
    | ok reads =>
      rw [hr] at h
      simp only [ScopeProcessing.optimize, Except.ok.injEq] at h
      subst h
      exact ⟨registered, reads, rfl, rfl, rfl, rfl⟩

/-- The claim's scalar-read placement: every operation strictly before a
scalar-read assign is the early-return guard.  (This is the part of the C1
ordering sentence that the code does not satisfy.) -/
def scalar_reads_precede_all (ops : List Operation) : Prop :=
  ∀ (i j : Fin ops.length), (ops.get i).is_scalar_read_assign = true → j.val < i.val →
    (ops.get j).is_early_return = true

/-- C1 (amended): a successful `process()` emits, in order: the optional
early-return guard, then the compiled global reads, then the scalar-read
assigns, then the layout-backfilled registered operations, then the write
procedures.  Reads therefore precede the registered operations and writes
follow them, but the scalar-read assigns sit after the global read
procedures, not before them. -/
theorem c1_process_operation_ordering (s : Scope) (p : ScopeProcessing)
    (h : s.process = .ok p) :
    ∃ (registered reads : List Operation),
      backfill_layout s.layout_ref s.operations
          s.index_offset_with_output_layout_position = .ok registered ∧
      compile_reads s.layout_ref s.reads_global = .ok reads ∧
      p.operations = guard_ops s.depth s.writes_global ++ reads
        ++ scalar_read_ops s.reads_scalar ++ registered ++ write_ops s.writes_global ∧
      (∀ op ∈ guard_ops s.depth s.writes_global, op.is_early_return = true) ∧
      (∀ op ∈ reads, op.is_read_proc = true) ∧
      (∀ op ∈ scalar_read_ops s.reads_scalar, op.is_assign = true) ∧
      ((∀ e ∈ s.reads_scalar, ∃ id elem, e.2 = Variable.GlobalScalar id elem) →
        ∀ op ∈ scalar_read_ops s.reads_scalar, op.is_scalar_read_assign = true) ∧
      (∀ op ∈ write_ops s.writes_global, op.is_write_proc = true) := by
  obtain ⟨registered, reads, hb, hr, hops, _⟩ := process_ok_decomposition s p h
  exact ⟨registered, reads, hb, hr, hops, guard_ops_early _ _,
    compile_reads_ok_reads hr, (scalar_read_ops_assigns _).1,
    (scalar_read_ops_assigns _).2, write_ops_writes _⟩

/-- The scalar `f32` item used by the concrete C1/C4 scope. -/
def item_f32 : Item := Item.new (.Float .F32)

/-- The concrete probe scope: one deferred write, one deferred array read and
one deferred scalar read recorded on the root scope. -/
def c1_scope : Scope :=
  let s := Scope.root
  let s := s.write_global (.ConstantScalar (.UInt 5)) (.GlobalOutputArray 0 item_f32)
    .AbsolutePos
  let s := (s.read_array 0 item_f32 .AbsolutePos).1
  let s := (s.read_scalar 0 (.Float .F32)).1
  s

/-- What `process()` returns on `c1_scope`: guard, read, scalar assign,
write — the scalar-read assign lands at index 2, after the read procedure. -/
def c1_processing : ScopeProcessing :=
  { «variables» := [.Local 0 item_f32 0, .LocalScalar 0 (.Float .F32) 0],
    operations := [
      .Procedure (.EarlyReturn ⟨.GlobalOutputArray 0 item_f32, .AbsolutePos⟩),
      .Procedure (.ReadGlobalWithLayout ⟨[.GlobalInputArray 0 item_f32],
        .GlobalOutputArray 0 item_f32, [.Local 0 item_f32 0], .AbsolutePos⟩),
      .Operator (.Assign ⟨.GlobalScalar 0 (.Float .F32), .LocalScalar 0 (.Float .F32) 0⟩),
      .Procedure (.WriteGlobal ⟨.ConstantScalar (.UInt 5), .GlobalOutputArray 0 item_f32,
        .AbsolutePos⟩)] }

/-- C1 counterexample: on `c1_scope`, `process()` succeeds and its output
violates the claimed placement of scalar reads — the scalar-read assign at
index 2 is preceded by the `ReadGlobalWithLayout` procedure at index 1, which
is not an early-return guard. -/
theorem c1_counterexample :
    c1_scope.process = .ok c1_processing ∧
    ¬ scalar_reads_precede_all c1_processing.operations := by
  refine ⟨rfl, ?_⟩
  intro hcl
  have := hcl ⟨2, by decide⟩ ⟨1, by decide⟩ (by decide) (by decide)
  simp [c1_processing, Operation.is_early_return] at this

/-- Witness for `c1_process_operation_ordering` at the concrete probe
scope. -/
theorem c1_process_operation_ordering_witness :
    c1_scope.process = .ok c1_processing ∧
    ∃ (registered reads : List Operation),
      backfill_layout c1_scope.layout_ref c1_scope.operations
          c1_scope.index_offset_with_output_layout_position = .ok registered ∧
      compile_reads c1_scope.layout_ref c1_scope.reads_global = .ok reads ∧
      c1_processing.operations = guard_ops c1_scope.depth c1_scope.writes_global ++ reads
        ++ scalar_read_ops c1_scope.reads_scalar ++ registered
        ++ write_ops c1_scope.writes_global ∧
      (∀ op ∈ guard_ops c1_scope.depth c1_scope.writes_global,
        op.is_early_return = true) ∧
      (∀ op ∈ reads, op.is_read_proc = true) ∧
      (∀ op ∈ scalar_read_ops c1_scope.reads_scalar, op.is_assign = true) ∧
      ((∀ e ∈ c1_scope.reads_scalar, ∃ id elem, e.2 = Variable.GlobalScalar id elem) →
        ∀ op ∈ scalar_read_ops c1_scope.reads_scalar,
          op.is_scalar_read_assign = true) ∧
      (∀ op ∈ write_ops c1_scope.writes_global, op.is_write_proc = true) :=
  ⟨rfl, c1_process_operation_ordering c1_scope c1_processing rfl⟩

/-- Number of `EarlyReturn` procedures in an operation list. -/
def count_early_returns (ops : List Operation) : ℕ :=
  (ops.filter Operation.is_early_return).length

/-- A read procedure is not an early return. -/
theorem is_read_proc_not_early (op : Operation) (h : op.is_read_proc = true) :
    op.is_early_return = false := by
  cases op with
  | Procedure p => cases p <;> simp_all [Operation.is_read_proc, Operation.is_early_return]
  | Operator o => simp [Operation.is_early_return]
  | Metadata m => simp [Operation.is_early_return]
  | Branch b => simp [Operation.is_early_return]
  | Synchronization s => simp [Operation.is_early_return]
  | Subcube => simp [Operation.is_early_return]
  | CoopMma => simp [Operation.is_early_return]

/-- An assign operator is not an early return. -/
theorem is_assign_not_early (op : Operation) (h : op.is_assign = true) :
    op.is_early_return = false := by
  cases op <;> simp_all [Operation.is_assign, Operation.is_early_return]

/-- A write procedure is not an early return. -/
theorem is_write_proc_not_early (op : Operation) (h : op.is_write_proc = true) :
    op.is_early_return = false := by
  cases op with
  | Procedure p => cases p <;> simp_all [Operation.is_write_proc, Operation.is_early_return]
  | Operator o => simp [Operation.is_early_return]
  | Metadata m => simp [Operation.is_early_return]
  | Branch b => simp [Operation.is_early_return]
  | Synchronization s => simp [Operation.is_early_return]
  | Subcube => simp [Operation.is_early_return]
  | CoopMma => simp [Operation.is_early_return]

/-- `count_early_returns` distributes over append. -/
theorem count_early_returns_append (a b : List Operation) :
    count_early_returns (a ++ b) = count_early_returns a + count_early_returns b := by
  simp [count_early_returns, List.filter_append]

/-- A list with no early returns counts zero. -/
theorem count_early_returns_eq_zero {l : List Operation}
    (h : ∀ op ∈ l, op.is_early_return = false) : count_early_returns l = 0 := by
  induction l with
  | nil => rfl
  | cons a t ih =>
    have ha := h a (by simp)
    have ht := ih fun op hop => h op (List.mem_cons_of_mem _ hop)
    simp [count_early_returns, List.filter_cons, ha] at ht ⊢
    exact ht

/-- Replacing an `IndexOffsetGlobalWithLayout` procedure in place by another
one does not change the early-return count. -/
theorem count_early_returns_set :
    ∀ (ops : List Operation) (i : ℕ) (p q : IndexOffsetGlobalWithLayout),
      ops.get? i = some (.Procedure (.IndexOffsetGlobalWithLayout p)) →
      count_early_returns (ops.set i (.Procedure (.IndexOffsetGlobalWithLayout q)))
        = count_early_returns ops := by
  intro ops
  induction ops with
  | nil => intro i p q h; simp at h
  | cons a t ih =>
    intro i p q h
    cases i with
    | zero =>
      simp only [List.get?] at h
      injection h with h
      subst h
      simp [count_early_returns, List.filter_cons, Operation.is_early_return]
    | succ n =>
      simp only [List.get?] at h
      have := ih n p q h
      show count_early_returns (a :: t.set n _) = _
      simp only [count_early_returns, List.filter_cons] at this ⊢
      cases a.is_early_return <;> simp_all

/-- The layout backfill rewrites `IndexOffsetGlobalWithLayout` procedures
in place and therefore preserves the early-return count. -/
theorem backfill_layout_count :
    ∀ (positions : List ℕ) (lr : Option Variable) (ops out : List Operation),
      backfill_layout lr ops positions = .ok out →
      count_early_returns out = count_early_returns ops := by
  intro positions
  induction positions with
  | nil =>
    intro lr ops out h
    simp only [backfill_layout, Except.ok.injEq] at h
    subst h; rfl
  | cons i rest ih =>
    intro lr ops out h
    simp only [backfill_layout] at h
    cases hg : ops.get? i with
    | none =>
      rw [hg] at h
      exact ih lr ops out h
    | some op =>
      rw [hg] at h
      match op, h with
      | .Operator o, h => exact ih lr ops out h
      | .Metadata m, h => exact ih lr ops out h
      | .Branch b, h => exact ih lr ops out h
      | .Synchronization sy, h => exact ih lr ops out h
      | .Subcube, h => exact ih lr ops out h
      | .CoopMma, h => exact ih lr ops out h
      | .Procedure (.ReadGlobal pr), h => exact ih lr ops out h
      | .Procedure (.ReadGlobalWithLayout pr), h => exact ih lr ops out h
      | .Procedure (.WriteGlobal pr), h => exact ih lr ops out h
      | .Procedure .ConditionalAssign, h => exact ih lr ops out h
      | .Procedure .CheckedIndex, h => exact ih lr ops out h
      | .Procedure .CheckedIndexAssign, h => exact ih lr ops out h
      | .Procedure (.EarlyReturn pr), h => exact ih lr ops out h
      | .Procedure (.IndexOffsetGlobalWithLayout pr), h =>
        simp only at h
        cases lr with
        | none => cases h
        | some l =>
          rw [ih (some l) _ out h]
          exact count_early_returns_set ops i pr _ hg

/-- C4: when `process()` succeeds, a root scope (`depth = 0`) with a pending
write puts exactly one `EarlyReturn` first in the output, built from the
first write's output and position; a non-root scope or one without pending
writes gets no `EarlyReturn` from `process()` (the count equals that of the
already-registered operations). -/
theorem c4_early_return_guard (s : Scope) (p : ScopeProcessing)
    (h : s.process = .ok p) :
    (∀ input global position rest,
        s.writes_global = (input, global, position) :: rest → s.depth = 0 →
        p.operations.head? = some (.Procedure (.EarlyReturn ⟨global, position⟩)) ∧
        count_early_returns p.operations = count_early_returns s.operations + 1) ∧
    ((s.depth ≠ 0 ∨ s.writes_global = []) →
        count_early_returns p.operations = count_early_returns s.operations) := by
  obtain ⟨registered, reads, hb, hr, hops, _⟩ := process_ok_decomposition s p h
  have hreg := backfill_layout_count _ _ _ _ hb
  have hreads : count_early_returns reads = 0 :=
    count_early_returns_eq_zero fun op hop =>
      is_read_proc_not_early op (compile_reads_ok_reads hr op hop)
  have hscalars : count_early_returns (scalar_read_ops s.reads_scalar) = 0 :=
    count_early_returns_eq_zero fun op hop =>
      is_assign_not_early op ((scalar_read_ops_assigns _).1 op hop)
  have hwrites : count_early_returns (write_ops s.writes_global) = 0 :=
    count_early_returns_eq_zero fun op hop =>
      is_write_proc_not_early op (write_ops_writes _ op hop)
  constructor
  · intro input global position rest hwg hd
    have hguard : guard_ops s.depth s.writes_global
        = [.Procedure (.EarlyReturn ⟨global, position⟩)] := by
      rw [hwg, hd]; rfl
    constructor
    · rw [hops, hguard]
      rfl
    · rw [hops, hguard]
      simp only [count_early_returns_append, hreads, hscalars, hwrites, hreg]
      have : count_early_returns [.Procedure (.EarlyReturn ⟨global, position⟩)] = 1 := rfl
      omega
  · intro hcase
    have hguard : guard_ops s.depth s.writes_global = [] := by
      rcases hcase with hd | hwg
      · unfold guard_ops
        cases hw : s.writes_global.head? with
        | none => rfl
        | some w =>
          obtain ⟨i, g, pos⟩ := w
          simp [if_neg hd]
      · rw [hwg]; rfl
    rw [hops, hguard]
    simp only [List.nil_append, count_early_returns_append, hreads, hscalars,
      hwrites, hreg]
    omega

/-- Witness for `c4_early_return_guard`: the concrete probe scope is a root
scope with one pending write, and the finalized list indeed starts with the
matching `EarlyReturn`. -/
theorem c4_early_return_guard_witness :
    c1_scope.process = .ok c1_processing ∧
    c1_scope.writes_global
      = [(.ConstantScalar (.UInt 5), .GlobalOutputArray 0 item_f32, .AbsolutePos)] ∧
    c1_scope.depth = 0 ∧
    c1_processing.operations.head?
      = some (.Procedure (.EarlyReturn ⟨.GlobalOutputArray 0 item_f32, .AbsolutePos⟩)) :=
  ⟨rfl, rfl, rfl,
    ((c4_early_return_guard c1_scope c1_processing rfl).1 _ _ _ _ rfl rfl).1⟩

/-- A marker body for counting emissions: register one `Assign` of the
handed induction variable onto itself. -/
def mark_op (v : Variable) : Operation :=
  .Operator (.Assign { input := v, out := v })

/-- The comptime-unrolled walk applies the body once per index, in order. -/
theorem unroll_range_marks (start n : ℕ) (context : CubeContext) :
    (unroll_range (fun c v => c.register (mark_op v)) start n context).scope.operations
      = context.scope.operations
        ++ (List.range' start n).map (fun i => mark_op (.ConstantScalar (.UInt i))) := by
  induction n generalizing start context with
  | zero => simp [unroll_range, List.range']
  | succ m ih =>
    rw [unroll_range, ih]
    simp [List.range', CubeContext.register, Scope.register]
    obtain ⟨d, ops, lo, ma, sl, sh, la, rg, io, wg, rs, lr, un⟩ := context.scope
    simp [Scope.register, Scope.operations]

/-- C5: `range_expand`.  Unrolled, a non-constant bound aborts; constant
`UInt` bounds run the body `end - start` times on the parent context, each
time with a fresh `ConstantScalar` induction value (exhibited by the fold
equation and by the marker body, which emits exactly the constants
`start, …, end - 1` in order).  Not unrolled, an undeclared `UInt` local
with id 0 is allocated in a child scope, the body runs once with it, and
exactly one `RangeLoop {i, start, end, step = None, scope}` is appended to
the parent's operations. -/
theorem c5_range_expand (context : CubeContext) :
    (∀ (start end_ : ExpandElement) (f : CubeContext → ExpandElement → CubeContext),
      (∀ v, start ≠ .ConstantScalar v) →
      range_expand context start end_ true f
        = .error "Only constant start can be unrolled.") ∧
    (∀ (v : ConstantScalarValue) (end_ : ExpandElement)
        (f : CubeContext → ExpandElement → CubeContext),
      (∀ w, end_ ≠ .ConstantScalar w) →
      range_expand context (.ConstantScalar v) end_ true f
        = .error "Only constant end can be unrolled.") ∧
    (∀ (s e : ℕ) (f : CubeContext → ExpandElement → CubeContext),
      range_expand context (.ConstantScalar (.UInt s)) (.ConstantScalar (.UInt e)) true f
        = .ok (unroll_range f s (e - s) context)) ∧
    (∀ (s e : ℕ),
      range_expand context (.ConstantScalar (.UInt s)) (.ConstantScalar (.UInt e)) true
          (fun c v => c.register (mark_op v))
        = .ok (unroll_range (fun c v => c.register (mark_op v)) s (e - s) context) ∧
      (unroll_range (fun c v => c.register (mark_op v)) s (e - s) context).scope.operations
        = context.scope.operations
          ++ (List.range' s (e - s)).map (fun i => mark_op (.ConstantScalar (.UInt i)))) ∧
    (∀ (start end_ : ExpandElement) (f : CubeContext → ExpandElement → CubeContext)
        (child_scope : Scope) (i : Variable),
      context.scope.child.create_local_undeclared (Item.new .UInt) = (child_scope, i) →
      i = .Local 0 (Item.new .UInt) (context.scope.depth + 1) ∧
      range_expand context start end_ false f
        = .ok (context.register
            (.Branch (.RangeLoop i start end_ none (f ⟨child_scope⟩ i).scope))) ∧
      (context.register
          (.Branch (.RangeLoop i start end_ none (f ⟨child_scope⟩ i).scope))).scope.operations
        = context.scope.operations
          ++ [.Branch (.RangeLoop i start end_ none (f ⟨child_scope⟩ i).scope)]) := by
  refine ⟨?_, ?_, ?_, ?_, ?_⟩
  · intro start end_ f hnc
    cases start <;> first
      | exact absurd rfl (hnc _)
      | rfl
  · intro v end_ f hnc
    cases end_ <;> first
      | exact absurd rfl (hnc _)
      | rfl
  · intro s e f
    rfl
  · intro s e
    exact ⟨rfl, unroll_range_marks s (e - s) context⟩
  · intro start end_ f child_scope i h
    obtain ⟨sc⟩ := context
    obtain ⟨d, ops, lo, ma, sl, sh, la, rg, io, wg, rs, lr, un⟩ := sc
    simp only [Scope.child, Scope.create_local_undeclared, Scope.depth, Scope.layout_ref,
      Prod.mk.injEq] at h
    obtain ⟨hcs, hi⟩ := h
    subst hcs
    subst hi
    exact ⟨rfl, rfl, rfl⟩

/-- Witness for `c5_range_expand`: the abort on a non-constant start, the
3-iteration unrolled marker run, and the runtime `RangeLoop` registration,
all at concrete inputs on a root context. -/
theorem c5_range_expand_witness :
    range_expand ⟨Scope.root⟩ .AbsolutePos (.ConstantScalar (.UInt 3)) true
        (fun c _ => c) = .error "Only constant start can be unrolled." ∧
    range_expand ⟨Scope.root⟩ (.ConstantScalar (.UInt 0)) (.ConstantScalar (.UInt 3)) true
        (fun c v => c.register (mark_op v))
      = .ok (unroll_range (fun c v => c.register (mark_op v)) 0 (3 - 0) ⟨Scope.root⟩) ∧
    Scope.root.child.create_local_undeclared (Item.new .UInt)
      = (.mk 1 [] [] [] [] [] [] [] [] [] [] none 1, .Local 0 (Item.new .UInt) 1) ∧
    range_expand ⟨Scope.root⟩ (.ConstantScalar (.UInt 0)) (.GlobalScalar 0 .UInt) false
        (fun c v => c.register (mark_op v))
      = .ok (CubeContext.register ⟨Scope.root⟩ (.Branch (.RangeLoop
          (.Local 0 (Item.new .UInt) 1) (.ConstantScalar (.UInt 0))
          (.GlobalScalar 0 .UInt) none
          ((fun (c : CubeContext) (v : Variable) => c.register (mark_op v))
            ⟨.mk 1 [] [] [] [] [] [] [] [] [] [] none 1⟩
            (.Local 0 (Item.new .UInt) 1)).scope))) :=
  ⟨(c5_range_expand ⟨Scope.root⟩).1 _ _ _ (fun _ h => Variable.noConfusion h),
   (c5_range_expand ⟨Scope.root⟩).2.2.1 0 3 (fun c v => c.register (mark_op v)),
   rfl,
   ((c5_range_expand ⟨Scope.root⟩).2.2.2.2 (.ConstantScalar (.UInt 0))
      (.GlobalScalar 0 .UInt) (fun c v => c.register (mark_op v))
      (.mk 1 [] [] [] [] [] [] [] [] [] [] none 1)
      (.Local 0 (Item.new .UInt) 1) rfl).2.1⟩

/-- The `(kind, id, depth)` identity triple of a variable; distinct
constructors get distinct kind tags, and kinds without an id or depth use 0
for the missing components. -/
def Variable.var_key : Variable → ℕ × ℕ × ℕ
  | .GlobalInputArray id _ => (0, id, 0)
  | .GlobalOutputArray id _ => (1, id, 0)
  | .GlobalScalar id _ => (2, id, 0)
  | .ConstantScalar _ => (3, 0, 0)
  | .Local id _ depth => (4, id, depth)
  | .LocalScalar id _ depth => (5, id, depth)
  | .Slice id _ depth => (6, id, depth)
  | .Matrix id depth => (7, id, depth)
  | .SharedMemory id _ _ => (8, id, 0)
  | .LocalArray id _ depth _ => (9, id, depth)
  | .AbsolutePos => (10, 0, 0)
  | .AbsolutePosX => (11, 0, 0)
  | .AbsolutePosY => (12, 0, 0)
  | .AbsolutePosZ => (13, 0, 0)
  | .UnitPos => (14, 0, 0)
  | .UnitPosX => (15, 0, 0)
  | .UnitPosY => (16, 0, 0)
  | .UnitPosZ => (17, 0, 0)
  | .CubePos => (18, 0, 0)
  | .CubePosX => (19, 0, 0)
  | .CubePosY => (20, 0, 0)
  | .CubePosZ => (21, 0, 0)
  | .CubeDim => (22, 0, 0)
  | .CubeDimX => (23, 0, 0)
  | .CubeDimY => (24, 0, 0)
  | .CubeDimZ => (25, 0, 0)
  | .CubeCount => (26, 0, 0)
  | .CubeCountX => (27, 0, 0)
  | .CubeCountY => (28, 0, 0)
  | .CubeCountZ => (29, 0, 0)
  | .Rank => (30, 0, 0)
  | .SubcubeDim => (31, 0, 0)

/-- The id of a `Local` variable (0 on other kinds). -/
def Variable.local_id : Variable → ℕ
  | .Local id _ _ => id
  | _ => 0

/-- One call to a public id-allocating `Scope` operation (the value returned
to the caller is dropped; only the scope evolution matters here).
`write_global_custom` is included so that scopes with deferred array reads
have the layout anchor `process()` requires. -/
inductive ScopeBuildOp where
  | create_local (item : Item)
  | create_local_undeclared (item : Item)
  | read_array (index : ℕ) (item : Item) (position : Variable)
  | read_scalar (index : ℕ) (elem : Elem)
  | create_matrix
  | create_slice (item : Item)
  | write_global_custom (output : Variable)

/-- Apply one build operation to a scope. -/
def Scope.apply_build (s : Scope) : ScopeBuildOp → Scope
  | .create_local item => (s.create_local item).1
  | .create_local_undeclared item => (s.create_local_undeclared item).1
  | .read_array index item position => (s.read_array index item position).1
  | .read_scalar index elem => (s.read_scalar index elem).1
  | .create_matrix => s.create_matrix.1
  | .create_slice item => (s.create_slice item).1
  | .write_global_custom output => s.write_global_custom output

/-- The scope built from a root by a list of public operations. -/
def Scope.build (ops : List ScopeBuildOp) : Scope :=
  ops.foldl Scope.apply_build Scope.root

/-- Invariant of scopes reachable through the public builder: locals are
`Local`s of the scope's depth with strictly increasing ids bounded by the
allocator counter, and matrices, slices and scalar-read locals carry exactly
their list position as id. -/
structure BuildInv (s : Scope) : Prop where
  locals_mem : ∀ v ∈ s.locals, ∃ id item, v = Variable.Local id item s.depth
    ∧ id < s.locals.length + s.undeclared
  locals_mono : s.locals.Pairwise (fun a b => a.local_id < b.local_id)
  matrices_eq : ∀ i v, s.matrices.get? i = some v → v = Variable.Matrix i s.depth
  slices_eq : ∀ i v, s.slices.get? i = some v
    → ∃ item, v = Variable.Slice i item s.depth
  scalars_eq : ∀ i e, s.reads_scalar.get? i = some e
    → ∃ elem, e.1 = Variable.LocalScalar i elem s.depth

/-- The root scope satisfies the builder invariant. -/
theorem build_inv_root : BuildInv Scope.root := by
  refine ⟨?_, ?_, ?_, ?_, ?_⟩ <;>
    simp [Scope.root, Scope.locals, Scope.matrices, Scope.slices, Scope.reads_scalar]

/-- Indexing a list extended by one element on the right. -/
theorem get?_concat {α : Type} (l : List α) (x : α) (i : ℕ) :
    (l ++ [x]).get? i
      = if i < l.length then l.get? i
        else if i = l.length then some x else none := by
  rcases lt_trichotomy i l.length with hlt | heq | hgt
  · rw [List.get?_append hlt, if_pos hlt]
  · subst heq
    simp [List.get?_concat_length]
  · rw [if_neg (by omega), if_neg (by omega)]
    simp only [List.get?_eq_none, List.length_append, List.length_singleton]
    omega

/-- Pairwise over a list extended by one element on the right. -/
theorem pairwise_concat {α : Type} {R : α → α → Prop} {l : List α} {x : α} :
    (l ++ [x]).Pairwise R ↔ l.Pairwise R ∧ ∀ a ∈ l, R a x := by
  simp [List.pairwise_append]

/-- Every public builder operation preserves the id invariant. -/
theorem build_inv_step (s : Scope) (op : ScopeBuildOp) (h : BuildInv s) :
    BuildInv (s.apply_build op) := by
  obtain ⟨hmem, hmono, hma, hsl, hsc⟩ := h
  obtain ⟨d, ops, lo, ma, sl, sh, la, rg, io, wg, rs, lr, un⟩ := s
  simp only [Scope.locals, Scope.matrices, Scope.slices, Scope.reads_scalar,
    Scope.depth, Scope.undeclared] at hmem hmono hma hsl hsc
  cases op with
  | create_local item =>
    refine ⟨?_, ?_, hma, hsl, hsc⟩
    · intro v hv
      simp only [Scope.apply_build, Scope.create_local, Scope.locals, Scope.depth,
        Scope.undeclared, List.length_append, List.length_singleton] at hv ⊢
      rcases List.mem_append.mp hv with hv | hv
      · obtain ⟨id, item', rfl, hlt⟩ := hmem v hv
        exact ⟨id, item', rfl, by omega⟩
      · rw [List.mem_singleton.mp hv]
        exact ⟨lo.length + un, item, rfl, by omega⟩
    · simp only [Scope.apply_build, Scope.create_local, Scope.locals]
      refine pairwise_concat.mpr ⟨hmono, fun a ha => ?_⟩
      obtain ⟨id, item', rfl, hlt⟩ := hmem a ha
      simp only [Variable.local_id]
      omega
  | create_local_undeclared item =>
    refine ⟨?_, hmono, hma, hsl, hsc⟩
    intro v hv
    simp only [Scope.apply_build, Scope.create_local_undeclared, Scope.locals,
      Scope.depth, Scope.undeclared] at hv ⊢
    obtain ⟨id, item', rfl, hlt⟩ := hmem v hv
    exact ⟨id, item', rfl, by omega⟩
  | read_array index item position =>
    refine ⟨?_, ?_, hma, hsl, hsc⟩
    · intro v hv
      simp only [Scope.apply_build, Scope.read_array, Scope.read_input_strategy,
        Scope.locals, Scope.depth, Scope.undeclared, List.length_append,
        List.length_singleton] at hv ⊢
      rcases List.mem_append.mp hv with hv | hv
      · obtain ⟨id, item', rfl, hlt⟩ := hmem v hv
        exact ⟨id, item', rfl, by omega⟩
      · rw [List.mem_singleton.mp hv]
        exact ⟨lo.length + un, item, rfl, by omega⟩
    · simp only [Scope.apply_build, Scope.read_array, Scope.read_input_strategy,
        Scope.locals]
      refine pairwise_concat.mpr ⟨hmono, fun a ha => ?_⟩
      obtain ⟨id, item', rfl, hlt⟩ := hmem a ha
      simp only [Variable.local_id]
      omega
  | read_scalar index elem =>
    refine ⟨hmem, hmono, hma, hsl, ?_⟩
    intro i e he
    simp only [Scope.apply_build, Scope.read_scalar, Scope.reads_scalar,
      Scope.depth] at he ⊢
    rw [get?_concat] at he
    by_cases hi : i < rs.length
    · rw [if_pos hi] at he
      exact hsc i e he
    · rw [if_neg hi] at he
      by_cases hieq : i = rs.length
      · rw [if_pos hieq] at he
        injection he with he
        subst he
        subst hieq
        exact ⟨elem, rfl⟩
      · rw [if_neg hieq] at he
        cases he
  | create_matrix =>
    refine ⟨hmem, hmono, ?_, hsl, hsc⟩
    intro i v hv
    simp only [Scope.apply_build, Scope.create_matrix, Scope.matrices,
      Scope.depth] at hv ⊢
    rw [get?_concat] at hv
    by_cases hi : i < ma.length
    · rw [if_pos hi] at hv
      exact hma i v hv
    · rw [if_neg hi] at hv
      by_cases hieq : i = ma.length
      · rw [if_pos hieq] at hv
        injection hv with hv
        subst hv
        subst hieq
        rfl
      · rw [if_neg hieq] at hv
        cases hv
  | create_slice item =>
    refine ⟨hmem, hmono, hma, ?_, hsc⟩
    intro i v hv
    simp only [Scope.apply_build, Scope.create_slice, Scope.slices,
      Scope.depth] at hv ⊢
    rw [get?_concat] at hv
    by_cases hi : i < sl.length
    · rw [if_pos hi] at hv
      exact hsl i v hv
    · rw [if_neg hi] at hv
      by_cases hieq : i = sl.length
      · rw [if_pos hieq] at hv
        injection hv with hv
        subst hv
        subst hieq
        exact ⟨item, rfl⟩
      · rw [if_neg hieq] at hv
        cases hv
  | write_global_custom output =>
    cases lr with
    | none => exact ⟨hmem, hmono, hma, hsl, hsc⟩
    | some l => exact ⟨hmem, hmono, hma, hsl, hsc⟩

/-- Every built scope satisfies the id invariant. -/
theorem build_inv (ops : List ScopeBuildOp) : BuildInv (Scope.build ops) := by
  suffices h : ∀ s, BuildInv s → BuildInv (ops.foldl Scope.apply_build s) from
    h _ build_inv_root
  induction ops with
  | nil => intro s hs; exact hs
  | cons o rest ih =>
    intro s hs
    exact ih _ (build_inv_step s o hs)

/-- A list whose entry at every index is mapped by `f` to `g` of that index
maps to the same list as `g` over the index range. -/
theorem indexed_map_eq_range {α β : Type} (l : List α) (f : α → β) (g : ℕ → β)
    (h : ∀ i v, l.get? i = some v → f v = g i) :
    l.map f = (List.range l.length).map g := by
  induction l generalizing g with
  | nil => rfl
  | cons a t ih =>
    simp only [List.map_cons, List.length_cons, List.range_succ_eq_map, List.map_map]
    rw [h 0 a rfl]
    refine congrArg (g 0 :: ·) ?_
    rw [ih (fun x => g (x + 1)) (fun i v hv => h (i + 1) v hv)]
    rfl

/-- All variable keys produced by `process()` on a scope satisfying the
builder invariant are pairwise distinct. -/
theorem keys_nodup_of_inv (s : Scope) (hinv : BuildInv s) :
    ((s.locals ++ s.matrices ++ s.slices ++ s.reads_scalar.map (fun e => e.1)).map
      Variable.var_key).Nodup := by
  obtain ⟨hmem, hmono, hma, hsl, hsc⟩ := hinv
  have hlo_tag : ∀ k ∈ s.locals.map Variable.var_key, k.1 = 4 := by
    intro k hk
    obtain ⟨v, hv, rfl⟩ := List.mem_map.mp hk
    obtain ⟨id, item, rfl, _⟩ := hmem v hv
    rfl
  have hlo_nodup : (s.locals.map Variable.var_key).Nodup := by
    show (s.locals.map Variable.var_key).Pairwise (· ≠ ·)
    rw [List.pairwise_map]
    refine hmono.imp_of_mem ?_
    intro a b ha hb hab
    obtain ⟨ida, itema, rfl, _⟩ := hmem a ha
    obtain ⟨idb, itemb, rfl, _⟩ := hmem b hb
    simp only [Variable.local_id] at hab
    simp [Variable.var_key, Prod.ext_iff]
    omega
  have hma_eq : s.matrices.map Variable.var_key
      = (List.range s.matrices.length).map (fun i => (7, i, s.depth)) := by
    refine indexed_map_eq_range _ _ _ ?_
    intro i v hv
    rw [hma i v hv]
    rfl
  have hsl_eq : s.slices.map Variable.var_key
      = (List.range s.slices.length).map (fun i => (6, i, s.depth)) := by
    refine indexed_map_eq_range _ _ _ ?_
    intro i v hv
    obtain ⟨item, rfl⟩ := hsl i v hv
    rfl
  have hsc_eq : (s.reads_scalar.map (fun e => e.1)).map Variable.var_key
      = (List.range s.reads_scalar.length).map (fun i => (5, i, s.depth)) := by
    rw [List.map_map]
    refine indexed_map_eq_range _ _ _ ?_
    intro i e he
    obtain ⟨elem, h1⟩ := hsc i e he
    simp only [Function.comp_apply, h1]
    rfl
  have hrange_nodup : ∀ (t : ℕ) (n : ℕ),
      ((List.range n).map (fun i => (t, i, s.depth))).Nodup := by
    intro t n
    refine List.Nodup.map ?_ (List.nodup_range n)
    intro a b hab
    simpa [Prod.ext_iff] using hab
  have hrange_tag : ∀ (t n : ℕ) (k : ℕ × ℕ × ℕ),
      k ∈ (List.range n).map (fun i => (t, i, s.depth)) → k.1 = t := by
    intro t n k hk
    obtain ⟨i, _, rfl⟩ := List.mem_map.mp hk
    rfl
  simp only [List.map_append]
  rw [hma_eq, hsl_eq, hsc_eq]
  refine List.Nodup.append (List.Nodup.append (List.Nodup.append hlo_nodup
      (hrange_nodup 7 _) ?_) (hrange_nodup 6 _) ?_) (hrange_nodup 5 _) ?_
  · intro k hk1 hk2
    have := hlo_tag k hk1
    have := hrange_tag 7 _ k hk2
    omega
  · intro k hk1 hk2
    have := hrange_tag 6 _ k hk2
    rcases List.mem_append.mp hk1 with hk | hk
    · have := hlo_tag k hk
      omega
    · have := hrange_tag 7 _ k hk
      omega
  · intro k hk1 hk2
    have := hrange_tag 5 _ k hk2
    rcases List.mem_append.mp hk1 with hk | hk
    · rcases List.mem_append.mp hk with hk' | hk'
      · have := hlo_tag k hk'
        omega
      · have := hrange_tag 7 _ k hk'
        omega
    · have := hrange_tag 6 _ k hk
      omega

/-- C9: on any scope built from the root through the public id-allocating
operations (`create_local`, `create_local_undeclared`, `read_array`,
`read_scalar`, `create_matrix`, `create_slice`, plus `write_global_custom` to
anchor layouts), a successful `process()` returns a variable list in which no
two variables share their `(kind, id, depth)` key. -/
theorem c9_unique_variable_keys (ops : List ScopeBuildOp) (p : ScopeProcessing)
    (h : (Scope.build ops).process = .ok p) :
    (p.«variables».map Variable.var_key).Nodup := by
  obtain ⟨registered, reads, _, _, _, hvars⟩ :=
    process_ok_decomposition (Scope.build ops) p h
  rw [hvars]
  exact keys_nodup_of_inv _ (build_inv ops)

/-- A build sequence exercising every public allocator. -/
def c9_ops : List ScopeBuildOp :=
  [.write_global_custom (.GlobalOutputArray 0 item_f32),
   .create_local item_f32,
   .create_local_undeclared item_f32,
   .read_array 0 item_f32 .AbsolutePos,
   .read_scalar 0 (.Float .F32),
   .create_matrix,
   .create_slice item_f32]

/-- The processing `c9_ops` produces. -/
def c9_processing : ScopeProcessing :=
  { «variables» := [.Local 0 item_f32 0, .Local 2 item_f32 0, .Matrix 0 0,
      .Slice 0 item_f32 0, .LocalScalar 0 (.Float .F32) 0],
    operations := [
      .Procedure (.ReadGlobalWithLayout ⟨[.GlobalInputArray 0 item_f32],
        .GlobalOutputArray 0 item_f32, [.Local 2 item_f32 0], .AbsolutePos⟩),
      .Operator (.Assign ⟨.GlobalScalar 0 (.Float .F32),
        .LocalScalar 0 (.Float .F32) 0⟩)] }

/-- Witness for `c9_unique_variable_keys` at the concrete build. -/
theorem c9_unique_variable_keys_witness :
    (Scope.build c9_ops).process = .ok c9_processing ∧
    (c9_processing.«variables».map Variable.var_key).Nodup :=
  ⟨rfl, c9_unique_variable_keys c9_ops c9_processing rfl⟩

end Cubecl
